import Mathlib

/-!
Sequential model of `air::circular_buffer`.

Shallow embedding of `include/air/circular_buffer.hpp`.

* `size_type` is `std::size_t`; values are natural numbers and every
  `fetch_add` is reduced modulo `SIZE_MOD = 2 ^ 64`.
* The flexible array member `data_[]` is a list of `Node`s.  An access
  `data_[i]` outside the list, and a `%` or `/` by a zero `capacity_`, are
  undefined behaviour in C++; the model reports them as `Fault.out_of_range`
  and `Fault.division_by_zero`.
* `throw std::runtime_error(msg)` is `Fault.runtime_error msg`.
* The model is sequential: the two loads of `write_count` in `at` observe the
  same value, and `notify_all` has no effect on the state.
-/

set_option linter.unusedVariables false

namespace air

deriving instance DecidableEq for Except

/-- Number of values of `size_type` (`std::size_t`). -/
def SIZE_MOD : Nat := 2 ^ 64

/-- Ways in which a member function can fail to return normally. -/
inductive Fault where
  | runtime_error (what : String)
  | division_by_zero
  | out_of_range
  deriving DecidableEq, Repr

/-- The message thrown by `at`. -/
def overwritten : Fault := Fault.runtime_error "data has been overwritten"

/-- Private `struct Node`: the atomic `write_count` and the payload. -/
structure Node (T : Type) where
  write_count : Nat
  value : T
  deriving DecidableEq, Repr

/-- The data members `size_`, `capacity_`, `data_[]` of the class. -/
structure circular_buffer (T : Type) where
  size_ : Nat
  capacity_ : Nat
  data_ : List (Node T)
  deriving DecidableEq, Repr

namespace circular_buffer

variable {T : Type}

/-- The constructor `circular_buffer(size_type capacity)`.  It is placed on
raw memory: `raw i` is the indeterminate content of `data_[i].value`, which
the constructor does not touch; only `write_count` is zeroed, for
`i = 0 .. capacity - 1`. -/
def construct (capacity : Nat) (raw : Nat → T) : circular_buffer T :=
  { capacity_ := capacity
    size_ := 0
    data_ := (List.range capacity).map fun i => { write_count := 0, value := raw i } }

/-- Member `push<is_notify>(val)`. -/
def push (is_notify : Bool) (b : circular_buffer T) (val : T) :
    Except Fault (circular_buffer T) :=
  if b.capacity_ = 0 then .error .division_by_zero
  else
    -- auto index = size_.fetch_add(1) % capacity_;
    let index := b.size_ % b.capacity_
    let size1 := (b.size_ + 1) % SIZE_MOD
    match b.data_[index]? with
    | none => .error .out_of_range
    | some node =>
      -- data_[index].value = val; data_[index].write_count.fetch_add(1);
      -- notify_all() (when is_notify) changes nothing in the state
      .ok { size_ := size1
            capacity_ := b.capacity_
            data_ := b.data_.set index
              { write_count := (node.write_count + 1) % SIZE_MOD, value := val } }

/-- Member `alloc()`.  The result is the returned pair `{index, &data_[index].value}`
together with the new state; the pointer is represented by the position of the
slot it points into. -/
def alloc (b : circular_buffer T) : Except Fault ((Nat × Nat) × circular_buffer T) :=
  if b.capacity_ = 0 then .error .division_by_zero
  else
    let index := b.size_ % b.capacity_
    .ok ((index, index),
      { size_ := (b.size_ + 1) % SIZE_MOD, capacity_ := b.capacity_, data_ := b.data_ })

/-- The caller's assignment `*p = v` through the pointer returned by `alloc`. -/
def store (b : circular_buffer T) (p : Nat) (v : T) : Except Fault (circular_buffer T) :=
  match b.data_[p]? with
  | none => .error .out_of_range
  | some node =>
    .ok { size_ := b.size_, capacity_ := b.capacity_
          data_ := b.data_.set p { write_count := node.write_count, value := v } }

/-- Member `commit<is_notify>(index)`: `data_[index].write_count.fetch_add(1)`,
with `index` used as it is passed. -/
def commit (is_notify : Bool) (b : circular_buffer T) (index : Nat) :
    Except Fault (circular_buffer T) :=
  match b.data_[index]? with
  | none => .error .out_of_range
  | some node =>
    .ok { size_ := b.size_, capacity_ := b.capacity_
          data_ := b.data_.set index
            { write_count := (node.write_count + 1) % SIZE_MOD, value := node.value } }

/-- Member `at(index)`. -/
def «at» (b : circular_buffer T) (index : Nat) : Except Fault T :=
  if b.capacity_ = 0 then .error .division_by_zero
  else
    let i := index % b.capacity_
    match b.data_[i]? with
    | none => .error .out_of_range
    | some node =>
      let write_count := node.write_count
      if write_count ≠ (index / b.capacity_ + 1) % SIZE_MOD then
        .error (.runtime_error "data has been overwritten")
      else
        let val := node.value
        -- second load of data_[i].write_count: same value in a sequential run
        if write_count ≠ node.write_count then
          .error (.runtime_error "data has been overwritten")
        else .ok val

/-- Members `operator[](index)` (both overloads): the value of slot
`index % capacity_`, no check. -/
def subscript (b : circular_buffer T) (index : Nat) : Except Fault T :=
  if b.capacity_ = 0 then .error .division_by_zero
  else
    match b.data_[index % b.capacity_]? with
    | none => .error .out_of_range
    | some node => .ok node.value

/-- The blocking rule of `std::atomic<size_type>::wait(old)`: the caller is
blocked exactly while the observed value equals `old`. -/
def atomic_wait_blocks (observed old : Nat) : Bool := observed == old

/-- Member `wait(index)`: `data_[i].write_count.wait((index / capacity_) + 1)`.
The result tells whether the calling thread blocks in the given state. -/
def wait (b : circular_buffer T) (index : Nat) : Except Fault Bool :=
  if b.capacity_ = 0 then .error .division_by_zero
  else
    match b.data_[index % b.capacity_]? with
    | none => .error .out_of_range
    | some node =>
      .ok (atomic_wait_blocks node.write_count ((index / b.capacity_ + 1) % SIZE_MOD))

/-- Member `size()`. -/
def size (b : circular_buffer T) : Nat := b.size_

/-- Member `capacity()`. -/
def capacity (b : circular_buffer T) : Nat := b.capacity_

/-- A run of sequential `push` calls, one per element of the list, in order. -/
def pushes (is_notify : Bool) (b : circular_buffer T) : List T → Except Fault (circular_buffer T)
  | [] => .ok b
  | v :: vs =>
    match b.push is_notify v with
    | .error e => .error e
    | .ok b1 => pushes is_notify b1 vs

/-- A run of `n` sequential `alloc` calls; the indices returned, in order of
issuance, and the final state. -/
def allocs (b : circular_buffer T) : Nat → Except Fault (List Nat × circular_buffer T)
  | 0 => .ok ([], b)
  | n + 1 =>
    match b.alloc with
    | .error e => .error e
    | .ok (r, b1) =>
      match allocs b1 n with
      | .error e => .error e
      | .ok (is, b2) => .ok (r.1 :: is, b2)

/-- The version (`write_count`) of the slot at position `s`, if there is one. -/
def version (b : circular_buffer T) (s : Nat) : Option Nat :=
  (b.data_[s]?).map Node.write_count

/-- The two-phase publish: `alloc()`, `*p = v`, `commit(index)` with the index
that `alloc` returned.  Returns that index and the final state. -/
def alloc_store_commit (is_notify : Bool) (b : circular_buffer T) (v : T) :
    Except Fault (Nat × circular_buffer T) :=
  match b.alloc with
  | .error e => .error e
  | .ok ((index, p), b1) =>
    match b1.store p v with
    | .error e => .error e
    | .ok b2 =>
      match b2.commit is_notify index with
      | .error e => .error e
      | .ok b3 => .ok (index, b3)

/-- Static member `get_memory_size(max_size)`:
`sizeof(circular_buffer) + (sizeof(Node) * max_size)` in `size_type`
arithmetic.  `header_size` stands for `sizeof(circular_buffer)` and `node_size`
for `sizeof(Node)`; both depend on `T`, `Atomic` and the platform. -/
def get_memory_size (header_size node_size max_size : Nat) : Nat :=
  (header_size + (node_size * max_size) % SIZE_MOD) % SIZE_MOD

/-- One call made on the buffer by a single thread.  `store` is the caller's
assignment through a pointer obtained from `alloc`. -/
inductive Op (T : Type) where
  | push (is_notify : Bool) (val : T)
  | alloc
  | store (p : Nat) (v : T)
  | commit (is_notify : Bool) (index : Nat)
  | read (index : Nat)
  | subscript (index : Nat)
  | size
  | capacity
  deriving DecidableEq, Repr

/-- The call assigns an index: `push` and `alloc` do `size_.fetch_add(1)`. -/
def Op.assigns_index : Op T → Bool
  | .push _ _ => true
  | .alloc => true
  | _ => false

/-- The call increments a version: `push` and `commit` do
`write_count.fetch_add(1)`. -/
def Op.increments_version : Op T → Bool
  | .push _ _ => true
  | .commit _ _ => true
  | _ => false

/-- The slot positions passed to `store` and `commit` lie inside a slot array
of `C` slots. -/
def Op.in_range (C : Nat) : Op T → Bool
  | .store p _ => decide (p < C)
  | .commit _ index => decide (index < C)
  | _ => true

/-- The state after one call.  `Op.read index` is the call `at(index)`; the
`std::runtime_error` it may throw is caught by the caller and the run goes on.
Undefined behaviour ends the run. -/
def step (b : circular_buffer T) : Op T → Except Fault (circular_buffer T)
  | .push is_notify val => b.push is_notify val
  | .alloc =>
    match b.alloc with
    | .error e => .error e
    | .ok (_, b1) => .ok b1
  | .store p v => b.store p v
  | .commit is_notify index => b.commit is_notify index
  | .read index =>
    match b.«at» index with
    | .error (.runtime_error _) => .ok b
    | .error e => .error e
    | .ok _ => .ok b
  | .subscript index =>
    match b.subscript index with
    | .error e => .error e
    | .ok _ => .ok b
  | .size => .ok b
  | .capacity => .ok b

/-- A sequential run of calls, in order. -/
def run (b : circular_buffer T) : List (Op T) → Except Fault (circular_buffer T)
  | [] => .ok b
  | op :: ops =>
    match b.step op with
    | .error e => .error e
    | .ok b1 => run b1 ops

/-! Interleaved execution: `push` and `at` cut into their shared-memory accesses. -/

/-- Where a producer thread stands inside `push(val)`. -/
inductive Producer (T : Type) where
  /-- before `size_.fetch_add(1)` -/
  | start (val : T)
  /-- `index` computed, before `data_[index].value = val` -/
  | indexed (index : Nat) (val : T)
  /-- value stored, before `data_[index].write_count.fetch_add(1)` -/
  | stored (index : Nat)
  | done
  deriving DecidableEq, Repr

/-- Where the reader thread stands inside `at(index)`. -/
inductive Reader (T : Type) where
  /-- before the first load of `data_[i].write_count` -/
  | start (index : Nat)
  /-- first check passed, before `value_type val = data_[i].value` -/
  | checked (i : Nat) (write_count : Nat)
  /-- value copied, before the second load of `data_[i].write_count` -/
  | copied (i : Nat) (write_count : Nat) (val : T)
  | returned (val : T)
  | thrown
  deriving DecidableEq, Repr

/-- The next shared-memory access of a producer. -/
def producer_step (b : circular_buffer T) :
    Producer T → Except Fault (circular_buffer T × Producer T)
  | .start val =>
    if b.capacity_ = 0 then .error .division_by_zero
    else
      .ok ({ size_ := (b.size_ + 1) % SIZE_MOD, capacity_ := b.capacity_, data_ := b.data_ },
        .indexed (b.size_ % b.capacity_) val)
  | .indexed index val =>
    match b.data_[index]? with
    | none => .error .out_of_range
    | some node =>
      .ok ({ size_ := b.size_, capacity_ := b.capacity_
             data_ := b.data_.set index { write_count := node.write_count, value := val } },
        .stored index)
  | .stored index =>
    match b.data_[index]? with
    | none => .error .out_of_range
    | some node =>
      .ok ({ size_ := b.size_, capacity_ := b.capacity_
             data_ := b.data_.set index
               { write_count := (node.write_count + 1) % SIZE_MOD, value := node.value } },
        .done)
  | .done => .ok (b, .done)

/-- The next shared-memory access of the reader. -/
def reader_step (b : circular_buffer T) : Reader T → Except Fault (Reader T)
  | .start index =>
    if b.capacity_ = 0 then .error .division_by_zero
    else
      match b.data_[index % b.capacity_]? with
      | none => .error .out_of_range
      | some node =>
        if node.write_count ≠ (index / b.capacity_ + 1) % SIZE_MOD then .ok .thrown
        else .ok (.checked (index % b.capacity_) node.write_count)
  | .checked i write_count =>
    match b.data_[i]? with
    | none => .error .out_of_range
    | some node => .ok (.copied i write_count node.value)
  | .copied i write_count val =>
    match b.data_[i]? with
    | none => .error .out_of_range
    | some node => if write_count ≠ node.write_count then .ok .thrown else .ok (.returned val)
  | .returned val => .ok (.returned val)
  | .thrown => .ok .thrown

end circular_buffer

open circular_buffer

/-- One reader inside `at` and any number of producers inside `push`, on one
buffer. -/
structure Interleaved (T : Type) where
  buffer : circular_buffer T
  reader : Reader T
  producers : List (Producer T)
  deriving DecidableEq, Repr

/-- Thread `0` (the reader) or thread `k + 1` (producer `k`) makes its next
access. -/
def Interleaved.step {T : Type} (s : Interleaved T) : Nat → Except Fault (Interleaved T)
  | 0 =>
    match reader_step s.buffer s.reader with
    | .error e => .error e
    | .ok r => .ok { buffer := s.buffer, reader := r, producers := s.producers }
  | k + 1 =>
    match s.producers[k]? with
    | none => .ok s
    | some pr =>
      match producer_step s.buffer pr with
      | .error e => .error e
      | .ok (b1, pr1) =>
        .ok { buffer := b1, reader := s.reader, producers := s.producers.set k pr1 }

/-- The accesses made in the order given by a schedule of thread numbers. -/
def Interleaved.exec {T : Type} (s : Interleaved T) : List Nat → Except Fault (Interleaved T)
  | [] => .ok s
  | t :: ts =>
    match s.step t with
    | .error e => .error e
    | .ok s1 => Interleaved.exec s1 ts

/-- A producer that makes its three accesses with no other thread in between. -/
def producer_alone {T : Type} (b : circular_buffer T) (val : T) :
    Except Fault (circular_buffer T) :=
  match producer_step b (.start val) with
  | .error e => .error e
  | .ok (b1, p1) =>
    match producer_step b1 p1 with
    | .error e => .error e
    | .ok (b2, p2) =>
      match producer_step b2 p2 with
      | .error e => .error e
      | .ok (b3, _) => .ok b3

/-- The reader making its three accesses with no other thread in between; a
`thrown` reader is the exception of `at`. -/
def reader_alone {T : Type} (b : circular_buffer T) (index : Nat) : Except Fault T :=
  match reader_step b (.start index) with
  | .error e => .error e
  | .ok r1 =>
    match reader_step b r1 with
    | .error e => .error e
    | .ok r2 =>
      match reader_step b r2 with
      | .error e => .error e
      | .ok (.returned val) => .ok val
      | .ok _ => .error (.runtime_error "data has been overwritten")

/-- Number of logical indices `j < N` that land in slot `s`. -/
def landed (C N s : Nat) : Nat := (List.range N).countP (fun j => j % C == s)

/-- Closed form of the number of logical indices `j < N` with `j % C = s`,
for a slot position `s < C`. -/
def published (C N s : Nat) : Nat := N / C + if s < N % C then 1 else 0

/-- The state invariant of a buffer of capacity `C` on which exactly the values
`vs` have been pushed, in order, since construction. -/
structure Reached {T : Type} (C : Nat) (vs : List T) (b : circular_buffer T) : Prop where
  size_eq : b.size_ = vs.length
  capacity_eq : b.capacity_ = C
  length_eq : b.data_.length = C
  version_eq : ∀ s, s < C → b.version s = some (published C vs.length s)
  value_eq : ∀ i, i < vs.length → vs.length ≤ i + C →
    (b.data_[i % C]?).map Node.value = vs[i]?

/-! ## Arithmetic of `published` -/

theorem succ_div_mod (C N : Nat) (hC : 0 < C) :
    (N % C + 1 < C ∧ (N + 1) / C = N / C ∧ (N + 1) % C = N % C + 1) ∨
    (N % C + 1 = C ∧ (N + 1) / C = N / C + 1 ∧ (N + 1) % C = 0) := by
  have hlt : N % C < C := Nat.mod_lt N hC
  have hdm : N % C + C * (N / C) = N := Nat.mod_add_div N C
  rcases Nat.lt_or_ge (N % C + 1) C with h | h
  · left
    have := (Nat.div_mod_unique (a := N + 1) (c := N % C + 1) (d := N / C) hC).2
      ⟨by omega, h⟩
    exact ⟨h, this.1, this.2⟩
  · right
    have hr : N % C + 1 = C := by omega
    have := (Nat.div_mod_unique (a := N + 1) (c := 0) (d := N / C + 1) hC).2
      ⟨by rw [Nat.mul_add]; omega, hC⟩
    exact ⟨hr, this.1, this.2⟩

theorem published_succ (C N s : Nat) (hC : 0 < C) (hs : s < C) :
    published C (N + 1) s = published C N s + if N % C = s then 1 else 0 := by
  unfold published
  rcases succ_div_mod C N hC with ⟨h1, h2, h3⟩ | ⟨h1, h2, h3⟩
  · rw [h2, h3]; split_ifs <;> omega
  · rw [h2, h3]; split_ifs <;> omega

theorem published_mono (C s : Nat) (hC : 0 < C) (hs : s < C) {N M : Nat} (h : N ≤ M) :
    published C N s ≤ published C M s := by
  induction M with
  | zero => have : N = 0 := by omega
            subst this; exact Nat.le_refl _
  | succ M ih =>
    rcases Nat.lt_or_ge N (M + 1) with h1 | h1
    · have := ih (by omega)
      rw [published_succ C M s hC hs]; omega
    · have : N = M + 1 := by omega
      subst this; exact Nat.le_refl _

theorem published_self (C i : Nat) (hC : 0 < C) : published C i (i % C) = i / C := by
  unfold published; simp

theorem published_add_cap (C N s : Nat) (hC : 0 < C) :
    published C (N + C) s = published C N s + 1 := by
  unfold published
  rw [Nat.add_mod_right, Nat.add_div_right N hC]; omega

theorem published_succ_self (C i : Nat) (hC : 0 < C) :
    published C (i + 1) (i % C) = i / C + 1 := by
  rw [published_succ C i _ hC (Nat.mod_lt i hC), published_self C i hC]; simp

/-- The version of the slot of index `i` while `i` is its latest occupant. -/
theorem published_current (C N i : Nat) (hC : 0 < C) (h1 : i < N) (h2 : N ≤ i + C) :
    published C N (i % C) = i / C + 1 := by
  have hs := Nat.mod_lt i hC
  have a := published_mono C (i % C) hC hs (show i + 1 ≤ N by omega)
  have b := published_mono C (i % C) hC hs h2
  rw [published_succ_self C i hC] at a
  rw [published_add_cap C i _ hC, published_self C i hC] at b
  omega

/-- The version of the slot of index `i` once a later index has landed there. -/
theorem published_overwritten (C N i : Nat) (hC : 0 < C) (h : i + C < N) :
    i / C + 2 ≤ published C N (i % C) := by
  have hs := Nat.mod_lt i hC
  have a := published_mono C (i % C) hC hs (show i + 1 + C ≤ N by omega)
  rw [published_add_cap C (i + 1) _ hC, published_succ_self C i hC] at a
  omega

/-- The version of the slot of index `i` before `i` is reached. -/
theorem published_future (C N i : Nat) (hC : 0 < C) (h : N ≤ i) :
    published C N (i % C) ≤ i / C := by
  have a := published_mono C (i % C) hC (Nat.mod_lt i hC) h
  rw [published_self C i hC] at a
  exact a

theorem published_le (C N s : Nat) (hC : 0 < C) : published C N s ≤ N := by
  unfold published
  have h1 : N / C ≤ N := Nat.div_le_self N C
  have hdm : N % C + C * (N / C) = N := Nat.mod_add_div N C
  split_ifs with h
  · have : N / C ≤ C * (N / C) := Nat.le_mul_of_pos_left _ hC
    omega
  · omega

/-! ## The invariant `Reached` -/

theorem mod_ne_of_lt {C i N : Nat} (h1 : i < N) (h2 : N < i + C) : i % C ≠ N % C := by
  intro h
  have h3 : (N - i) % C = 0 := Nat.sub_mod_eq_zero_of_mod_eq h.symm
  rw [Nat.mod_eq_of_lt (by omega)] at h3
  omega

theorem reached_construct {T : Type} (C : Nat) (raw : Nat → T) :
    Reached C ([] : List T) (construct C raw) where
  size_eq := rfl
  capacity_eq := rfl
  length_eq := by simp [construct]
  version_eq := by
    intro s hs
    simp [version, construct, List.getElem?_range hs, published, Nat.zero_div]
  value_eq := by intro i hi; simp at hi

theorem push_ok {T : Type} (is_notify : Bool) (b : circular_buffer T) (v : T) (node : Node T)
    (hC : b.capacity_ ≠ 0) (h : b.data_[b.size_ % b.capacity_]? = some node) :
    b.push is_notify v = .ok
      { size_ := (b.size_ + 1) % SIZE_MOD
        capacity_ := b.capacity_
        data_ := b.data_.set (b.size_ % b.capacity_)
          { write_count := (node.write_count + 1) % SIZE_MOD, value := v } } := by
  simp only [push, if_neg hC, h]

theorem at_ok {T : Type} (b : circular_buffer T) (index : Nat) (node : Node T)
    (hC : b.capacity_ ≠ 0) (h : b.data_[index % b.capacity_]? = some node) :
    b.«at» index =
      if node.write_count = (index / b.capacity_ + 1) % SIZE_MOD
      then .ok node.value else .error overwritten := by
  simp only [circular_buffer.«at», if_neg hC, h, ne_eq, not_true_eq_false, if_false, ite_not,
    overwritten]

theorem reached_push {T : Type} {C : Nat} {vs : List T} {b : circular_buffer T}
    (R : Reached C vs b) (hC : 0 < C) (hN : vs.length + 1 < SIZE_MOD)
    (is_notify : Bool) (v : T) :
    ∃ b1, b.push is_notify v = .ok b1 ∧ Reached C (vs ++ [v]) b1 := by
  have hidx : vs.length % C < b.data_.length := by
    rw [R.length_eq]; exact Nat.mod_lt _ hC
  have hsome : b.data_[vs.length % C]? = some (b.data_[vs.length % C]) :=
    List.getElem?_eq_getElem hidx
  have hver := R.version_eq (vs.length % C) (Nat.mod_lt _ hC)
  rw [version, hsome] at hver
  simp only [Option.map_some', Option.some.injEq] at hver
  have hle := published_le C vs.length (vs.length % C) hC
  have hpush := push_ok is_notify b v (b.data_[vs.length % C])
    (by rw [R.capacity_eq]; omega) (by rw [R.capacity_eq, R.size_eq]; exact hsome)
  rw [R.size_eq, R.capacity_eq] at hpush
  refine ⟨_, hpush, ?_⟩
  · refine ⟨?_, rfl, ?_, ?_, ?_⟩
    · simp only [List.length_append, List.length_singleton]
      exact Nat.mod_eq_of_lt hN
    · simp only [List.length_set]; exact R.length_eq
    · intro s hs
      simp only [version, List.length_append, List.length_singleton, List.getElem?_set]
      rw [published_succ C vs.length s hC hs]
      by_cases hEq : vs.length % C = s
      · rw [if_pos hEq, if_pos hidx, if_pos hEq, hver, hEq]
        simp only [Option.map_some']
        rw [Nat.mod_eq_of_lt (by rw [← hEq]; omega)]
      · rw [if_neg hEq, if_neg hEq]
        have := R.version_eq s hs
        rw [version] at this
        rw [this]; rfl
    · intro i hi hcap
      simp only [List.length_append, List.length_singleton] at hi hcap
      rcases Nat.lt_or_ge i vs.length with hlt | hge
      · have hne : vs.length % C ≠ i % C := fun h => mod_ne_of_lt hlt (by omega) h.symm
        rw [List.getElem?_set_ne hne, List.getElem?_append_left hlt]
        exact R.value_eq i hlt (by omega)
      · have : i = vs.length := by omega
        subst this
        rw [List.getElem?_set_self hidx, List.getElem?_concat_length]
        rfl

theorem pushes_append {T : Type} (is_notify : Bool) (vs ws : List T) (b : circular_buffer T) :
    b.pushes is_notify (vs ++ ws) =
      match b.pushes is_notify vs with
      | .error e => .error e
      | .ok b1 => b1.pushes is_notify ws := by
  induction vs generalizing b with
  | nil => rfl
  | cons v vs ih =>
    simp only [List.cons_append, pushes]
    cases b.push is_notify v with
    | error e => rfl
    | ok b1 => exact ih b1

/-- Fewer than `2 ^ 64` sequential pushes on a fresh buffer all return, and the
state they reach satisfies the invariant. -/
theorem reached_pushes {T : Type} (C : Nat) (raw : Nat → T) (hC : 0 < C)
    (is_notify : Bool) (vs : List T) (hN : vs.length < SIZE_MOD) :
    ∃ b, (construct C raw).pushes is_notify vs = .ok b ∧ Reached C vs b := by
  induction vs using List.reverseRecOn with
  | nil => exact ⟨_, rfl, reached_construct C raw⟩
  | append_singleton vs v ih =>
    simp only [List.length_append, List.length_singleton] at hN
    obtain ⟨b, hb, R⟩ := ih (by omega)
    obtain ⟨b1, hb1, R1⟩ := reached_push R hC hN is_notify v
    refine ⟨b1, ?_, R1⟩
    rw [pushes_append, hb]
    simp only [pushes, hb1]

/-- In a state satisfying the invariant, `at` is decided by the comparison of
`published` with the expected version. -/
theorem at_of_reached {T : Type} {C : Nat} {vs : List T} {b : circular_buffer T}
    (R : Reached C vs b) (hC : 0 < C) (index : Nat) :
    ∃ node, b.data_[index % C]? = some node ∧
      node.write_count = published C vs.length (index % C) ∧
      b.«at» index =
        if published C vs.length (index % C) = (index / C + 1) % SIZE_MOD
        then .ok node.value else .error overwritten := by
  have hidx : index % C < b.data_.length := by
    rw [R.length_eq]; exact Nat.mod_lt _ hC
  have hsome : b.data_[index % C]? = some (b.data_[index % C]) :=
    List.getElem?_eq_getElem hidx
  have hver := R.version_eq (index % C) (Nat.mod_lt _ hC)
  rw [version, hsome] at hver
  simp only [Option.map_some', Option.some.injEq] at hver
  refine ⟨_, hsome, hver, ?_⟩
  have h := at_ok b index (b.data_[index % C]) (by rw [R.capacity_eq]; omega)
    (by rw [R.capacity_eq]; exact hsome)
  rw [R.capacity_eq, hver] at h
  exact h

theorem SIZE_MOD_eq : SIZE_MOD = 18446744073709551616 := by decide

theorem div_succ_le (C i : Nat) : i / C + 1 ≤ i + 1 :=
  Nat.succ_le_succ (Nat.div_le_self i C)

/-- On a buffer of capacity one, `k + 1` pushes of the same value `v`: both
counters advance by `k + 1` modulo `2 ^ 64` and the slot holds `v`. -/
theorem pushes_replicate_capacity_one {T : Type} (is_notify : Bool) (v : T) (k : Nat) :
    ∀ (sz wc : Nat) (x : T),
      (circular_buffer.mk sz 1 [Node.mk wc x]).pushes is_notify (List.replicate (k + 1) v) =
        .ok (circular_buffer.mk ((sz + (k + 1)) % SIZE_MOD) 1
          [Node.mk ((wc + (k + 1)) % SIZE_MOD) v]) := by
  induction k with
  | zero =>
    intro sz wc x
    simp [List.replicate, pushes, push, Nat.mod_one]
  | succ k ih =>
    intro sz wc x
    rw [List.replicate_succ, pushes]
    have hp : (circular_buffer.mk sz 1 [Node.mk wc x]).push is_notify v =
        .ok (circular_buffer.mk ((sz + 1) % SIZE_MOD) 1 [Node.mk ((wc + 1) % SIZE_MOD) v]) := by
      simp [push, Nat.mod_one]
    rw [hp]
    simp only []
    rw [ih]
    simp only [SIZE_MOD_eq]
    have h1 : ∀ a : Nat, ((a + 1) % 18446744073709551616 + (k + 1)) % 18446744073709551616 =
        (a + (k + 1 + 1)) % 18446744073709551616 := by
      intro a; omega
    rw [h1 sz, h1 wc]

/-! ## Validated reads after sequential pushes (C1, C2, C3) -/

/-- C1: for every capacity `C ≥ 1` and every sequence `vs` of `N < 2 ^ 64`
sequential pushes on a freshly constructed buffer, all pushes return and
`at(i)` returns exactly the `i`-th pushed value for every `i < N` with
`N - i ≤ C`. -/
theorem C1_at_returns_pushed {T : Type} (C : Nat) (raw : Nat → T) (is_notify : Bool)
    (vs : List T) (i : Nat) (hC : 1 ≤ C) (hN : vs.length < 2 ^ 64)
    (hi : i < vs.length) (hwin : vs.length - i ≤ C) :
    ∃ b, (construct C raw).pushes is_notify vs = .ok b ∧ b.«at» i = .ok vs[i] := by
  obtain ⟨b, hb, R⟩ := reached_pushes C raw hC is_notify vs (by rw [SIZE_MOD_eq]; omega)
  refine ⟨b, hb, ?_⟩
  obtain ⟨node, hnode, -, hat⟩ := at_of_reached R hC i
  have hval := R.value_eq i hi (by omega)
  rw [hnode, List.getElem?_eq_getElem hi] at hval
  simp only [Option.map_some', Option.some.injEq] at hval
  have hexp : (i / C + 1) % SIZE_MOD = i / C + 1 := by
    apply Nat.mod_eq_of_lt
    have := div_succ_le C i
    rw [SIZE_MOD_eq]; omega
  rw [hat, hexp, published_current C vs.length i hC hi (by omega), if_pos rfl, hval]

/-- C1 at capacity 4 after pushing "a".."e": `at(4)` returns "e". -/
theorem C1_at_returns_pushed_witness :
    ∃ b, (construct 4 (fun _ => "")).pushes true ["a", "b", "c", "d", "e"] = .ok b ∧
      b.«at» 4 = .ok "e" :=
  C1_at_returns_pushed 4 (fun _ => "") true ["a", "b", "c", "d", "e"] 4
    (by decide) (by decide) (by decide) (by decide)

/-- C2 as stated (no bound on the number of pushes) fails: with capacity 1,
after `2 ^ 64 + 1` pushes the version of slot 0 has wrapped around to 1, so
`at(0)` succeeds although index 0 has been overwritten (`0 + 1 < 2 ^ 64 + 1`). -/
theorem C2_counterexample :
    ∃ b, (construct 1 (fun _ => (0 : Nat))).pushes true (List.replicate (2 ^ 64 + 1) 7) = .ok b ∧
      0 + 1 < (List.replicate (2 ^ 64 + 1) (7 : Nat)).length ∧
      b.«at» 0 = .ok 7 := by
  refine ⟨_, pushes_replicate_capacity_one true 7 (2 ^ 64) 0 0 0, ?_, ?_⟩
  · rw [List.length_replicate]; decide
  · decide

/-- C2 (amended): for every capacity `C ≥ 1` and every sequence of
`N < 2 ^ 64` sequential pushes on a fresh buffer, `at(i)` fails with the
invalid-read error for every overwritten index, `i + C < N`. -/
theorem C2_at_overwritten_fails {T : Type} (C : Nat) (raw : Nat → T) (is_notify : Bool)
    (vs : List T) (i : Nat) (hC : 1 ≤ C) (hN : vs.length < 2 ^ 64)
    (hi : i + C < vs.length) :
    ∃ b, (construct C raw).pushes is_notify vs = .ok b ∧
      b.«at» i = .error (.runtime_error "data has been overwritten") := by
  obtain ⟨b, hb, R⟩ := reached_pushes C raw hC is_notify vs (by rw [SIZE_MOD_eq]; omega)
  refine ⟨b, hb, ?_⟩
  obtain ⟨node, -, -, hat⟩ := at_of_reached R hC i
  have hexp : (i / C + 1) % SIZE_MOD = i / C + 1 := by
    apply Nat.mod_eq_of_lt
    have := div_succ_le C i
    rw [SIZE_MOD_eq]; omega
  have hov := published_overwritten C vs.length i hC hi
  rw [hat, hexp, if_neg (by omega)]
  rfl

/-- C2 (amended) at capacity 4 after five pushes: `at(0)` fails. -/
theorem C2_at_overwritten_fails_witness :
    ∃ b, (construct 4 (fun _ => "")).pushes true ["a", "b", "c", "d", "e"] = .ok b ∧
      b.«at» 0 = .error (.runtime_error "data has been overwritten") :=
  C2_at_overwritten_fails 4 (fun _ => "") true ["a", "b", "c", "d", "e"] 0
    (by decide) (by decide) (by decide)

/-- C3 as stated fails: on a fresh buffer of capacity 1 the expected version
of index `2 ^ 64 - 1` is `(2 ^ 64 - 1) / 1 + 1`, which wraps to 0 in
`size_type`, the version of the never written slot; `at` returns the
indeterminate content of the slot instead of failing. -/
theorem C3_counterexample :
    (construct 1 (fun _ => (7 : Nat))).pushes true [] = .ok (construct 1 (fun _ => 7)) ∧
      ([] : List Nat).length ≤ 2 ^ 64 - 1 ∧ 2 ^ 64 - 1 < 2 ^ 64 ∧
      (construct 1 (fun _ => (7 : Nat))).«at» (2 ^ 64 - 1) = .ok 7 := by
  refine ⟨rfl, by decide, by decide, by decide⟩

/-- C3 (amended): for every capacity `C ≥ 1`, every state reached by `N`
sequential pushes and every `size_type` index `i ≥ N`, `at(i)` fails with the
invalid-read error, except in the single case `C = 1`, `N = 0`,
`i = 2 ^ 64 - 1`. -/
theorem C3_at_unreached_fails {T : Type} (C : Nat) (raw : Nat → T) (is_notify : Bool)
    (vs : List T) (i : Nat) (hC : 1 ≤ C) (hi : i < 2 ^ 64) (hge : vs.length ≤ i)
    (hex : ¬ (C = 1 ∧ vs.length = 0 ∧ i = 2 ^ 64 - 1)) :
    ∃ b, (construct C raw).pushes is_notify vs = .ok b ∧
      b.«at» i = .error (.runtime_error "data has been overwritten") := by
  obtain ⟨b, hb, R⟩ := reached_pushes C raw hC is_notify vs (by rw [SIZE_MOD_eq]; omega)
  refine ⟨b, hb, ?_⟩
  obtain ⟨node, -, -, hat⟩ := at_of_reached R hC i
  have hfut := published_future C vs.length i hC hge
  have hdiv := div_succ_le C i
  rw [hat, if_neg, overwritten]
  rw [SIZE_MOD_eq]
  rcases Nat.lt_or_ge (i / C + 1) 18446744073709551616 with hlt | hwrap
  · rw [Nat.mod_eq_of_lt hlt]; omega
  · -- the expected version wraps: `i / C = i = 2 ^ 64 - 1`, hence `C = 1`
    have hi1 : i = 18446744073709551615 := by omega
    have hq : i / C = i := by omega
    have hC1 : C = 1 := by
      have hmul : C * (i / C) ≤ i := Nat.mul_div_le i C
      rw [hq] at hmul
      rcases Nat.lt_or_ge 1 C with h2 | h2
      · have : 2 * i ≤ C * i := Nat.mul_le_mul_right i h2
        omega
      · omega
    subst hC1
    have hp : published 1 vs.length (i % 1) = vs.length := by
      simp [published, Nat.mod_one]
    rw [hp, hq, hi1]
    have hne : vs.length ≠ 0 := fun h0 => hex ⟨rfl, h0, by omega⟩
    omega

/-- C3 (amended) on a fresh buffer of capacity 4: `at(0)` fails. -/
theorem C3_at_unreached_fails_witness :
    ∃ b, (construct 4 (fun _ => "")).pushes true [] = .ok b ∧
      b.«at» 0 = .error (.runtime_error "data has been overwritten") :=
  C3_at_unreached_fails 4 (fun _ => "") true [] 0
    (by decide) (by decide) (by decide) (by decide)

/-! ## Construction with capacity zero (C4) -/

/-- C4 as stated fails: the constructor has no check, so constructing with
capacity 0 returns a buffer, and that buffer has `capacity() == 0`. -/
theorem C4_counterexample :
    ∃ b : circular_buffer Nat, construct 0 (fun _ => 0) = b ∧ b.capacity = 0 ∧ b.size = 0 :=
  ⟨_, rfl, rfl, rfl⟩

/-- C4 (amended): construction with capacity 0 is not rejected; it yields a
buffer with `capacity() == 0`, `size() == 0` and no slot, on which `push`,
`alloc`, `at`, `operator[]` and `wait` all take a remainder by zero. -/
theorem C4_construct_zero_not_rejected {T : Type} (raw : Nat → T) :
    (construct 0 raw).capacity = 0 ∧ (construct 0 raw).size = 0 ∧
      (construct 0 raw).data_ = [] ∧
      (∀ is_notify v, (construct 0 raw).push is_notify v = .error .division_by_zero) ∧
      (construct 0 raw).alloc = .error .division_by_zero ∧
      (∀ i, (construct 0 raw).«at» i = .error .division_by_zero) ∧
      (∀ i, (construct 0 raw).subscript i = .error .division_by_zero) ∧
      (∀ i, (construct 0 raw).wait i = .error .division_by_zero) :=
  ⟨rfl, rfl, rfl, fun _ _ => rfl, rfl, fun _ => rfl, fun _ => rfl, fun _ => rfl⟩

/-! ## The two-phase form `alloc` / `commit` (C5, C6, C7, C10) -/

theorem allocs_from {T : Type} (C : Nat) (hC : 0 < C) (n : Nat) :
    ∀ (k : Nat) (b : circular_buffer T), b.capacity_ = C → b.size_ = k % SIZE_MOD →
      allocs b n = .ok ((List.range' k n).map (fun j => j % SIZE_MOD % C),
        circular_buffer.mk ((k + n) % SIZE_MOD) C b.data_) := by
  induction n with
  | zero =>
    intro k b hcap hsz
    cases b
    simp only [allocs, List.range'_zero, List.map_nil, Nat.add_zero]
    simp only at hcap hsz
    rw [hcap, hsz]
  | succ n ih =>
    intro k b hcap hsz
    have hal : b.alloc = .ok ((k % SIZE_MOD % C, k % SIZE_MOD % C),
        circular_buffer.mk ((k + 1) % SIZE_MOD) C b.data_) := by
      unfold alloc
      rw [hcap, hsz, if_neg (by omega), Nat.mod_add_mod]
    simp only [allocs, hal, ih (k + 1) (circular_buffer.mk ((k + 1) % SIZE_MOD) C b.data_) rfl rfl,
      List.range'_succ, List.map_cons]
    rw [Nat.add_assoc k 1 n, Nat.add_comm 1 n]

/-- C5 as stated fails: on a buffer of capacity 1 the second `alloc()` call
returns index 0 again, not index 1; the returned indices are not distinct. -/
theorem C5_counterexample :
    ∃ b, allocs (construct 1 (fun _ => (0 : Nat))) 2 = .ok ([0, 0], b) :=
  ⟨_, rfl⟩

/-- C5 (amended): for every capacity `C ≥ 1` and `n < 2 ^ 64` sequential
`alloc()` calls on a fresh buffer, the `k`-th call returns the slot position
`k mod C`; these are the logical indices `0 .. n-1` when `n ≤ C`. -/
theorem C5_alloc_returns_slot {T : Type} (C : Nat) (raw : Nat → T) (n : Nat)
    (hC : 1 ≤ C) (hn : n < 2 ^ 64) :
    ∃ b, allocs (construct C raw) n = .ok ((List.range n).map (fun k => k % C), b) ∧
      b.size = n ∧
      (n ≤ C → (List.range n).map (fun k => k % C) = List.range n) := by
  have h := allocs_from C hC n 0 (construct C raw) rfl rfl
  have hmap : (List.range' 0 n).map (fun j => j % SIZE_MOD % C) =
      (List.range n).map (fun k => k % C) := by
    rw [← List.range_eq_range']
    apply List.map_congr_left
    intro a ha
    rw [List.mem_range] at ha
    show a % SIZE_MOD % C = a % C
    rw [Nat.mod_eq_of_lt (show a < SIZE_MOD by rw [SIZE_MOD_eq]; omega)]
  rw [hmap] at h
  refine ⟨_, h, ?_, ?_⟩
  · show (0 + n) % SIZE_MOD = n
    rw [Nat.zero_add, Nat.mod_eq_of_lt (by rw [SIZE_MOD_eq]; omega)]
  · intro hle
    conv_rhs => rw [← List.map_id (List.range n)]
    apply List.map_congr_left
    intro a ha
    rw [List.mem_range] at ha
    exact Nat.mod_eq_of_lt (by omega)

/-- C5 (amended) at capacity 4 with three calls: indices 0, 1, 2. -/
theorem C5_alloc_returns_slot_witness :
    ∃ b, allocs (construct 4 (fun _ => "")) 3 = .ok ((List.range 3).map (fun k => k % 4), b) ∧
      b.size = 3 ∧
      (3 ≤ 4 → (List.range 3).map (fun k => k % 4) = List.range 3) :=
  C5_alloc_returns_slot 4 (fun _ => "") 3 (by decide) (by decide)

theorem at_fails_iff {T : Type} (b : circular_buffer T) (index : Nat) (node : Node T)
    (hC : b.capacity_ ≠ 0) (h : b.data_[index % b.capacity_]? = some node) :
    b.«at» index = .error (.runtime_error "data has been overwritten") ↔
      node.write_count ≠ (index / b.capacity_ + 1) % SIZE_MOD := by
  rw [at_ok b index node hC h]
  by_cases hv : node.write_count = (index / b.capacity_ + 1) % SIZE_MOD
  · rw [if_pos hv]; simp [hv]
  · rw [if_neg hv]; simp [hv, overwritten]

theorem slot_of_reached {T : Type} {C : Nat} {vs : List T} {b : circular_buffer T}
    (R : Reached C vs b) (hC : 0 < C) :
    ∃ node, b.data_[vs.length % C]? = some node ∧ node.write_count = vs.length / C := by
  obtain ⟨node, h1, h2, -⟩ := at_of_reached R hC vs.length
  exact ⟨node, h1, by rw [h2, published_self C _ hC]⟩

theorem alloc_of_reached {T : Type} {C : Nat} {vs : List T} {b : circular_buffer T}
    (R : Reached C vs b) (hC : 0 < C) :
    b.alloc = .ok ((vs.length % C, vs.length % C),
      circular_buffer.mk ((vs.length + 1) % SIZE_MOD) C b.data_) := by
  unfold alloc
  rw [R.capacity_eq, R.size_eq, if_neg (by omega)]

theorem alloc_store_commit_of_reached {T : Type} {C : Nat} {vs : List T}
    {b : circular_buffer T} (R : Reached C vs b) (hC : 0 < C) (is_notify : Bool) (v : T) :
    b.alloc_store_commit is_notify v = .ok (vs.length % C,
      circular_buffer.mk ((vs.length + 1) % SIZE_MOD) C
        (b.data_.set (vs.length % C)
          { write_count := (vs.length / C + 1) % SIZE_MOD, value := v })) := by
  obtain ⟨node, hnode, hwc⟩ := slot_of_reached R hC
  have hidx : vs.length % C < b.data_.length := by
    rw [R.length_eq]; exact Nat.mod_lt _ hC
  simp only [alloc_store_commit, alloc_of_reached R hC, store, hnode, commit,
    List.getElem?_set_self hidx, List.set_set, hwc]

/-- C6 as stated fails: with capacity 1, after one push (a wrapped state),
`alloc()` returns index 0; after storing "b" and `commit(0)` the version of
slot 0 is 2, so `at(0)` fails instead of returning "b". -/
theorem C6_counterexample :
    ∃ b b3, (construct 1 (fun _ => "")).pushes true ["a"] = .ok b ∧
      b.alloc_store_commit true "b" = .ok (0, b3) ∧
      b3.«at» 0 = .error (.runtime_error "data has been overwritten") :=
  ⟨_, _, rfl, rfl, by decide⟩

/-- C6 (amended): in the state reached by `N < 2 ^ 64` sequential pushes on a
fresh buffer of capacity `C ≥ 1`, `alloc()` returns the slot position
`N mod C`; after a store of `v` through the pointer and `commit` of the
returned index, `at(N)` succeeds and returns `v`, and `at` of the returned
index succeeds and returns `v` exactly when the buffer had not wrapped
(`N < C`). -/
theorem C6_two_phase_publish {T : Type} (C : Nat) (raw : Nat → T) (is_notify : Bool)
    (vs : List T) (v : T) (hC : 1 ≤ C) (hN : vs.length < 2 ^ 64) :
    ∃ b index b3, (construct C raw).pushes is_notify vs = .ok b ∧
      b.alloc_store_commit is_notify v = .ok (index, b3) ∧
      index = vs.length % C ∧
      b3.«at» vs.length = .ok v ∧
      (b3.«at» index = .ok v ↔ vs.length < C) := by
  obtain ⟨b, hb, R⟩ := reached_pushes C raw hC is_notify vs (by rw [SIZE_MOD_eq]; omega)
  have hidx : vs.length % C < b.data_.length := by
    rw [R.length_eq]; exact Nat.mod_lt _ hC
  refine ⟨b, _, _, hb, alloc_store_commit_of_reached R hC is_notify v, rfl, ?_, ?_⟩
  · rw [at_ok _ vs.length _ (show C ≠ 0 by omega) (List.getElem?_set_self hidx)]
    exact if_pos rfl
  · have hslot : (b.data_.set (vs.length % C)
        { write_count := (vs.length / C + 1) % SIZE_MOD, value := v })[vs.length % C % C]? =
        some { write_count := (vs.length / C + 1) % SIZE_MOD, value := v } := by
      rw [Nat.mod_mod]; exact List.getElem?_set_self hidx
    rw [at_ok _ (vs.length % C) _ (show C ≠ 0 by omega) hslot]
    simp only [Nat.div_eq_of_lt (Nat.mod_lt vs.length hC), SIZE_MOD_eq]
    have hq : vs.length / C ≤ vs.length := Nat.div_le_self _ _
    have hz := Nat.div_eq_zero_iff (a := vs.length) hC
    constructor
    · intro h
      by_cases hv : (vs.length / C + 1) % 18446744073709551616 = (0 + 1) % 18446744073709551616
      · apply hz.1
        generalize vs.length / C = q at hq hv
        omega
      · rw [if_neg hv] at h; exact absurd h (by simp [overwritten])
    · intro h
      rw [if_pos (by rw [hz.2 h])]

/-- C6 (amended) at capacity 4 after two pushes. -/
theorem C6_two_phase_publish_witness :
    ∃ b index b3, (construct 4 (fun _ => "")).pushes true ["a", "b"] = .ok b ∧
      b.alloc_store_commit true "c" = .ok (index, b3) ∧
      index = ["a", "b"].length % 4 ∧
      b3.«at» ["a", "b"].length = .ok "c" ∧
      (b3.«at» index = .ok "c" ↔ ["a", "b"].length < 4) :=
  C6_two_phase_publish 4 (fun _ => "") true ["a", "b"] "c" (by decide) (by decide)

theorem div_eq_one_iff (C N : Nat) (hC : 0 < C) : N / C = 1 ↔ C ≤ N ∧ N < 2 * C := by
  have h1 := Nat.le_div_iff_mul_le (x := 1) (y := N) hC
  have h2 := Nat.div_lt_iff_lt_mul (x := N) (y := 2) hC
  rw [Nat.one_mul] at h1
  constructor
  · intro h
    exact ⟨h1.1 (by omega), h2.1 (by omega)⟩
  · intro h
    have a := h1.2 h.1
    have b := h2.2 h.2
    omega

/-- C7 as stated fails: with capacity 1, after one push (a wrapped state),
`alloc()` returns index 0 and, with no `commit` yet, `at(0)` succeeds: slot 0
still has version 1, the expected version of index 0. -/
theorem C7_counterexample :
    ∃ b p b1, (construct 1 (fun _ => "")).pushes true ["a"] = .ok b ∧
      b.alloc = .ok ((0, p), b1) ∧ b1.«at» 0 = .ok "a" :=
  ⟨_, _, _, rfl, rfl, by decide⟩

/-- C7 (amended): in the state reached by `N < 2 ^ 64` sequential pushes on a
fresh buffer of capacity `C ≥ 1`, after `alloc()` returned `(index, p)` and
before any `commit`, with or without a store through `p`: `at(N)` fails with
the invalid-read error, and `at(index)` fails with it whenever `N` is not in
the second lap `C ≤ N < 2 * C`, in particular whenever the buffer has not
wrapped (`N < C`).  In the second lap `index` is `N - C`, a logical index that
is still published, and as long as nothing has been stored through `p`,
`at(index)` returns the value pushed for it. -/
theorem C7_read_before_commit {T : Type} (C : Nat) (raw : Nat → T) (is_notify : Bool)
    (vs : List T) (hC : 1 ≤ C) (hN : vs.length < 2 ^ 64) :
    ∃ b index p b1, (construct C raw).pushes is_notify vs = .ok b ∧
      b.alloc = .ok ((index, p), b1) ∧
      b1.«at» vs.length = .error (.runtime_error "data has been overwritten") ∧
      (¬ (C ≤ vs.length ∧ vs.length < 2 * C) →
        b1.«at» index = .error (.runtime_error "data has been overwritten")) ∧
      (C ≤ vs.length → vs.length < 2 * C →
        index = vs.length - C ∧ ∃ x, vs[vs.length - C]? = some x ∧ b1.«at» index = .ok x) ∧
      ∀ v, ∃ b2, b1.store p v = .ok b2 ∧
        b2.«at» vs.length = .error (.runtime_error "data has been overwritten") ∧
        (¬ (C ≤ vs.length ∧ vs.length < 2 * C) →
          b2.«at» index = .error (.runtime_error "data has been overwritten")) := by
  obtain ⟨b, hb, R⟩ := reached_pushes C raw hC is_notify vs (by rw [SIZE_MOD_eq]; omega)
  obtain ⟨node, hnode, hwc⟩ := slot_of_reached R hC
  have hidx : vs.length % C < b.data_.length := by
    rw [R.length_eq]; exact Nat.mod_lt _ hC
  have hq : vs.length / C ≤ vs.length := Nat.div_le_self _ _
  have hone := div_eq_one_iff C vs.length hC
  have hC0 : C ≠ 0 := by omega
  -- the comparison made by `at(N)` and by `at(N % C)` on a slot of version `N / C`
  have hlog : vs.length / C ≠ (vs.length / C + 1) % SIZE_MOD := by
    rw [SIZE_MOD_eq]
    generalize vs.length / C = q at hq
    omega
  have hphys : vs.length / C ≠ (vs.length % C / C + 1) % SIZE_MOD ↔
      ¬ (C ≤ vs.length ∧ vs.length < 2 * C) := by
    rw [Nat.div_eq_of_lt (Nat.mod_lt vs.length hC), SIZE_MOD_eq, ← hone]
  have hslot : b.data_[vs.length % C % C]? = some node := by rw [Nat.mod_mod]; exact hnode
  refine ⟨b, _, _, _, hb, alloc_of_reached R hC, ?_, ?_, ?_, ?_⟩
  · rw [at_fails_iff _ vs.length node hC0 hnode, hwc]
    exact hlog
  · intro hlap
    rw [at_fails_iff _ (vs.length % C) node hC0 hslot, hwc]
    exact hphys.2 hlap
  · intro h1 h2
    have hsub : vs.length % C = vs.length - C := by
      rw [Nat.mod_eq_sub_mod h1, Nat.mod_eq_of_lt (by omega)]
    have hval := R.value_eq (vs.length - C) (by omega) (by omega)
    rw [Nat.mod_eq_of_lt (by omega), ← hsub, hnode] at hval
    refine ⟨hsub, node.value, ?_, ?_⟩
    · rw [← hsub, ← hval]; rfl
    · rw [at_ok _ (vs.length % C) node hC0 hslot, hwc, if_pos]
      exact Decidable.of_not_not (fun hne => (hphys.1 hne) ⟨h1, h2⟩)
  · intro v
    have hset : (b.data_.set (vs.length % C)
        { write_count := node.write_count, value := v })[vs.length % C]? =
        some { write_count := node.write_count, value := v } :=
      List.getElem?_set_self hidx
    refine ⟨circular_buffer.mk ((vs.length + 1) % SIZE_MOD) C
      (b.data_.set (vs.length % C) { write_count := node.write_count, value := v }), ?_, ?_, ?_⟩
    · simp only [store, hnode]
    · rw [at_fails_iff _ vs.length _ hC0 hset, hwc]
      exact hlog
    · intro hlap
      rw [at_fails_iff _ (vs.length % C) _ hC0 (by rw [Nat.mod_mod]; exact hset), hwc]
      exact hphys.2 hlap

/-- C7 (amended) at capacity 4 after two pushes. -/
theorem C7_read_before_commit_witness :
    ∃ b index p b1, (construct 4 (fun _ => "")).pushes true ["a", "b"] = .ok b ∧
      b.alloc = .ok ((index, p), b1) ∧
      b1.«at» ["a", "b"].length = .error (.runtime_error "data has been overwritten") ∧
      (¬ (4 ≤ ["a", "b"].length ∧ ["a", "b"].length < 2 * 4) →
        b1.«at» index = .error (.runtime_error "data has been overwritten")) ∧
      (4 ≤ ["a", "b"].length → ["a", "b"].length < 2 * 4 →
        index = ["a", "b"].length - 4 ∧
          ∃ x, ["a", "b"][["a", "b"].length - 4]? = some x ∧ b1.«at» index = .ok x) ∧
      ∀ v, ∃ b2, b1.store p v = .ok b2 ∧
        b2.«at» ["a", "b"].length = .error (.runtime_error "data has been overwritten") ∧
        (¬ (4 ≤ ["a", "b"].length ∧ ["a", "b"].length < 2 * 4) →
          b2.«at» index = .error (.runtime_error "data has been overwritten")) :=
  C7_read_before_commit 4 (fun _ => "") true ["a", "b"] (by decide) (by decide)

/-! ## Blocking wait (C8, C9) -/

/-- C8, the code at the failing input: capacity 1, after `push("a")` index 0
is published (slot 0 has version 1, the expected version of index 0, and
`at(0)` returns "a"), and `wait(0)` blocks. -/
theorem C8_wait_blocks_on_published :
    ∃ b, (construct 1 (fun _ => "")).pushes true ["a"] = .ok b ∧
      b.version (0 % 1) = some (0 / 1 + 1) ∧ b.«at» 0 = .ok "a" ∧
      b.wait 0 = .ok true :=
  ⟨_, rfl, by decide, by decide, by decide⟩

/-- C9, the code at the failing input: on a fresh buffer of capacity 1, index
0 is not published (slot 0 has version 0, below the expected version 1), and
`wait(0)` does not block. -/
theorem C9_wait_returns_on_unpublished :
    (construct 1 (fun _ => "")).version (0 % 1) = some 0 ∧ 0 < 0 / 1 + 1 ∧
      (construct 1 (fun _ => "")).wait 0 = .ok false :=
  ⟨by decide, by decide, by decide⟩

/-! ## Frame of `commit` (C10) -/

/-- C10 as stated fails: with capacity 2, `commit(3)` does not increment the
version of slot `3 mod 2 = 1`; it accesses `data_[3]`, outside the two slots. -/
theorem C10_counterexample :
    (construct 2 (fun _ => (0 : Nat))).commit true 3 = .error .out_of_range ∧
      (construct 2 (fun _ => (0 : Nat))).version (3 % 2) = some 0 :=
  ⟨by decide, by decide⟩

/-- C10 (amended): on a buffer whose slot array has `capacity()` slots,
`commit(i)` with a slot position `i < capacity()` (as `alloc` returns it)
increments the version of slot `i` by one modulo `2 ^ 64` and leaves `size()`,
`capacity()`, the number of slots, the value of slot `i` and every other slot
unchanged; with `i ≥ capacity()` it accesses `data_[i]` outside the slots. -/
theorem C10_commit_frame {T : Type} (b : circular_buffer T) (is_notify : Bool) (i : Nat)
    (hwf : b.data_.length = b.capacity_) :
    (i < b.capacity_ → ∃ node b1, b.data_[i]? = some node ∧
        b.commit is_notify i = .ok b1 ∧
        b1.size = b.size ∧ b1.capacity = b.capacity ∧
        b1.data_.length = b.data_.length ∧
        b1.data_[i]? =
          some { write_count := (node.write_count + 1) % SIZE_MOD, value := node.value } ∧
        ∀ s, s ≠ i → b1.data_[s]? = b.data_[s]?) ∧
      (b.capacity_ ≤ i → b.commit is_notify i = .error .out_of_range) := by
  constructor
  · intro hi
    have hidx : i < b.data_.length := by omega
    have hsome : b.data_[i]? = some (b.data_[i]) := List.getElem?_eq_getElem hidx
    refine ⟨b.data_[i], circular_buffer.mk b.size_ b.capacity_ (b.data_.set i
      { write_count := (b.data_[i].write_count + 1) % SIZE_MOD, value := b.data_[i].value }),
      hsome, ?_, rfl, rfl, ?_, ?_, ?_⟩
    · simp only [commit, hsome]
    · exact List.length_set _ _ _
    · exact List.getElem?_set_self hidx
    · intro s hs
      exact List.getElem?_set_ne (fun h => hs h.symm)
  · intro hi
    have hnone : b.data_[i]? = none := List.getElem?_eq_none (by omega)
    simp only [commit, hnone]

/-- C10 (amended) on a fresh buffer of capacity 2, slot position 1. -/
theorem C10_commit_frame_witness :
    (construct 2 (fun _ => "")).data_.length = (construct 2 (fun _ => "")).capacity_ ∧
      ((1 < (construct 2 (fun _ => "")).capacity_ → ∃ node b1,
          (construct 2 (fun _ => "")).data_[1]? = some node ∧
          (construct 2 (fun _ => "")).commit true 1 = .ok b1 ∧
          b1.size = (construct 2 (fun _ => "")).size ∧
          b1.capacity = (construct 2 (fun _ => "")).capacity ∧
          b1.data_.length = (construct 2 (fun _ => "")).data_.length ∧
          b1.data_[1]? =
            some { write_count := (node.write_count + 1) % SIZE_MOD, value := node.value } ∧
          ∀ s, s ≠ 1 → b1.data_[s]? = (construct 2 (fun _ => "")).data_[s]?) ∧
        ((construct 2 (fun _ => "")).capacity_ ≤ 1 →
          (construct 2 (fun _ => "")).commit true 1 = .error .out_of_range)) :=
  ⟨rfl, C10_commit_frame (construct 2 (fun _ => "")) true 1 rfl⟩

/-! ## `push` and the two-phase form (C11) -/

theorem getElem_some_lt {α : Type} {l : List α} {i : Nat} {a : α} (h : l[i]? = some a) :
    i < l.length := by
  obtain ⟨hlt, -⟩ := List.getElem?_eq_some.1 h
  exact hlt

theorem slot_exists {T : Type} (b : circular_buffer T) (hC : 1 ≤ b.capacity_)
    (hwf : b.data_.length = b.capacity_) (index : Nat) :
    ∃ node, b.data_[index % b.capacity_]? = some node := by
  have hidx : index % b.capacity_ < b.data_.length := by
    rw [hwf]; exact Nat.mod_lt _ (by omega)
  exact ⟨_, List.getElem?_eq_getElem hidx⟩

/-- C11: for every state with capacity at least 1 and every value `v`,
`push(v)` has exactly the outcome of `alloc()`, a store of `v` through the
returned pointer and `commit` of the returned index; on a buffer holding its
`capacity()` slots both return, with the same resulting state. -/
theorem C11_push_eq_two_phase {T : Type} (b : circular_buffer T) (is_notify : Bool) (v : T)
    (hC : 1 ≤ b.capacity_) :
    b.push is_notify v = Except.map Prod.snd (b.alloc_store_commit is_notify v) ∧
      (b.data_.length = b.capacity_ → ∃ index b1,
        b.alloc_store_commit is_notify v = .ok (index, b1) ∧ b.push is_notify v = .ok b1) := by
  have hC0 : b.capacity_ ≠ 0 := by omega
  have key : b.push is_notify v = Except.map Prod.snd (b.alloc_store_commit is_notify v) := by
    cases h : b.data_[b.size_ % b.capacity_]? with
    | none =>
      simp only [push, if_neg hC0, h, alloc_store_commit, alloc, store, Except.map]
    | some node =>
      have hidx := getElem_some_lt h
      simp only [push, if_neg hC0, h, alloc_store_commit, alloc, store, commit,
        List.getElem?_set_self hidx, List.set_set, Except.map]
  refine ⟨key, ?_⟩
  intro hwf
  obtain ⟨node, h⟩ := slot_exists b hC hwf b.size_
  have hidx := getElem_some_lt h
  refine ⟨b.size_ % b.capacity_, _, ?_, push_ok is_notify b v node hC0 h⟩
  simp only [alloc_store_commit, alloc, if_neg hC0, store, h, commit,
    List.getElem?_set_self hidx, List.set_set]

/-- C11 on the wrapped buffer of capacity 2 holding three pushes. -/
theorem C11_push_eq_two_phase_witness :
    (circular_buffer.mk 3 2 [Node.mk 2 "c", Node.mk 1 "b"]).push true "d" =
        Except.map Prod.snd
          ((circular_buffer.mk 3 2 [Node.mk 2 "c", Node.mk 1 "b"]).alloc_store_commit true "d") ∧
      ((circular_buffer.mk 3 2 [Node.mk 2 "c", Node.mk 1 "b"]).data_.length =
          (circular_buffer.mk 3 2 [Node.mk 2 "c", Node.mk 1 "b"]).capacity_ → ∃ index b1,
        (circular_buffer.mk 3 2 [Node.mk 2 "c", Node.mk 1 "b"]).alloc_store_commit true "d" =
          .ok (index, b1) ∧
        (circular_buffer.mk 3 2 [Node.mk 2 "c", Node.mk 1 "b"]).push true "d" = .ok b1) :=
  C11_push_eq_two_phase (circular_buffer.mk 3 2 [Node.mk 2 "c", Node.mk 1 "b"]) true "d"
    (by decide)

/-! ## What one call does to the state -/

theorem push_inv {T : Type} {is_notify : Bool} {b b1 : circular_buffer T} {v : T}
    (h : b.push is_notify v = .ok b1) :
    ∃ node, b.capacity_ ≠ 0 ∧ b.data_[b.size_ % b.capacity_]? = some node ∧
      b1 = circular_buffer.mk ((b.size_ + 1) % SIZE_MOD) b.capacity_
        (b.data_.set (b.size_ % b.capacity_)
          { write_count := (node.write_count + 1) % SIZE_MOD, value := v }) := by
  by_cases hC : b.capacity_ = 0
  · simp [push, hC] at h
  · cases hn : b.data_[b.size_ % b.capacity_]? with
    | none => simp [push, hC, hn] at h
    | some node =>
      rw [push_ok is_notify b v node hC hn] at h
      exact ⟨node, hC, rfl, (Except.ok.inj h).symm⟩

theorem alloc_inv {T : Type} {b b1 : circular_buffer T} {r : Nat × Nat}
    (h : b.alloc = .ok (r, b1)) :
    b.capacity_ ≠ 0 ∧ r = (b.size_ % b.capacity_, b.size_ % b.capacity_) ∧
      b1 = circular_buffer.mk ((b.size_ + 1) % SIZE_MOD) b.capacity_ b.data_ := by
  by_cases hC : b.capacity_ = 0
  · simp [alloc, hC] at h
  · simp only [alloc, if_neg hC, Except.ok.injEq, Prod.mk.injEq] at h
    exact ⟨hC, h.1.symm, h.2.symm⟩

theorem store_inv {T : Type} {b b1 : circular_buffer T} {p : Nat} {v : T}
    (h : b.store p v = .ok b1) :
    ∃ node, b.data_[p]? = some node ∧
      b1 = circular_buffer.mk b.size_ b.capacity_
        (b.data_.set p { write_count := node.write_count, value := v }) := by
  cases hn : b.data_[p]? with
  | none => simp [store, hn] at h
  | some node =>
    simp only [store, hn, Except.ok.injEq] at h
    exact ⟨node, rfl, h.symm⟩

theorem commit_inv {T : Type} {is_notify : Bool} {b b1 : circular_buffer T} {index : Nat}
    (h : b.commit is_notify index = .ok b1) :
    ∃ node, b.data_[index]? = some node ∧
      b1 = circular_buffer.mk b.size_ b.capacity_
        (b.data_.set index
          { write_count := (node.write_count + 1) % SIZE_MOD, value := node.value }) := by
  cases hn : b.data_[index]? with
  | none => simp [commit, hn] at h
  | some node =>
    simp only [commit, hn, Except.ok.injEq] at h
    exact ⟨node, rfl, h.symm⟩

theorem read_inv {T : Type} {b b1 : circular_buffer T} {index : Nat}
    (h : b.step (.read index) = .ok b1) : b1 = b := by
  simp only [step] at h
  split at h
  · exact (Except.ok.inj h).symm
  · exact absurd h (by simp)
  · exact (Except.ok.inj h).symm

theorem subscript_inv {T : Type} {b b1 : circular_buffer T} {index : Nat}
    (h : b.step (.subscript index) = .ok b1) : b1 = b := by
  simp only [step] at h
  split at h
  · exact absurd h (by simp)
  · exact (Except.ok.inj h).symm

/-- One call keeps `capacity_` and the number of slots, and advances `size_`
by one modulo `2 ^ 64` exactly when it is a `push` or an `alloc`. -/
theorem step_frame {T : Type} {b b1 : circular_buffer T} {op : Op T}
    (h : b.step op = .ok b1) :
    b1.capacity_ = b.capacity_ ∧ b1.data_.length = b.data_.length ∧
      b1.size_ = if op.assigns_index then (b.size_ + 1) % SIZE_MOD else b.size_ := by
  cases op with
  | push is_notify val =>
    obtain ⟨node, -, -, rfl⟩ := push_inv (show b.push is_notify val = .ok b1 from h)
    exact ⟨rfl, List.length_set _ _ _, rfl⟩
  | alloc =>
    simp only [step] at h
    split at h
    · exact absurd h (by simp)
    · rename_i r b2 hal
      obtain ⟨-, -, rfl⟩ := alloc_inv hal
      cases Except.ok.inj h
      exact ⟨rfl, rfl, rfl⟩
  | store p v =>
    obtain ⟨node, -, rfl⟩ := store_inv (show b.store p v = .ok b1 from h)
    exact ⟨rfl, List.length_set _ _ _, rfl⟩
  | commit is_notify index =>
    obtain ⟨node, -, rfl⟩ := commit_inv (show b.commit is_notify index = .ok b1 from h)
    exact ⟨rfl, List.length_set _ _ _, rfl⟩
  | read index => cases read_inv h; exact ⟨rfl, rfl, rfl⟩
  | subscript index => cases subscript_inv h; exact ⟨rfl, rfl, rfl⟩
  | size => cases Except.ok.inj (show Except.ok b = .ok b1 from h); exact ⟨rfl, rfl, rfl⟩
  | capacity => cases Except.ok.inj (show Except.ok b = .ok b1 from h); exact ⟨rfl, rfl, rfl⟩

theorem run_frame {T : Type} (ops : List (Op T)) :
    ∀ (b b1 : circular_buffer T), b.run ops = .ok b1 → b.size_ < SIZE_MOD →
      b1.capacity_ = b.capacity_ ∧ b1.data_.length = b.data_.length ∧
        b1.size_ = (b.size_ + ops.countP Op.assigns_index) % SIZE_MOD := by
  induction ops with
  | nil =>
    intro b b1 h hlt
    cases Except.ok.inj (show Except.ok b = .ok b1 from h)
    exact ⟨rfl, rfl, by simp [Nat.mod_eq_of_lt hlt]⟩
  | cons op ops ih =>
    intro b b1 h hlt
    simp only [run] at h
    split at h
    · exact absurd h (by simp)
    · rename_i b2 hstep
      obtain ⟨hc, hl, hs⟩ := step_frame hstep
      have hlt2 : b2.size_ < SIZE_MOD := by
        rw [hs]; split_ifs
        · exact Nat.mod_lt _ (by rw [SIZE_MOD_eq]; omega)
        · exact hlt
      obtain ⟨hc1, hl1, hs1⟩ := ih b2 b1 h hlt2
      refine ⟨hc1.trans hc, hl1.trans hl, ?_⟩
      rw [hs1, hs, List.countP_cons]
      by_cases ha : op.assigns_index = true
      · simp only [ha, if_true, SIZE_MOD_eq]; omega
      · simp only [ha, if_false, Bool.false_eq_true, Nat.add_zero]

/-- On a buffer holding its `capacity() ≥ 1` slots, a call whose slot position
(for `store` and `commit`) lies inside the slots returns. -/
theorem step_total {T : Type} (b : circular_buffer T) (op : Op T) (hC : 1 ≤ b.capacity_)
    (hwf : b.data_.length = b.capacity_) (hop : op.in_range b.capacity_ = true) :
    ∃ b1, b.step op = .ok b1 := by
  have hC0 : b.capacity_ ≠ 0 := by omega
  cases op with
  | push is_notify val =>
    obtain ⟨node, h⟩ := slot_exists b hC hwf b.size_
    exact ⟨_, push_ok is_notify b val node hC0 h⟩
  | alloc =>
    cases h : b.step .alloc with
    | ok b1 => exact ⟨b1, rfl⟩
    | error e => simp [step, alloc, hC0] at h
  | store p v =>
    have hp : p < b.data_.length := by rw [hwf]; exact of_decide_eq_true hop
    cases h : b.step (.store p v) with
    | ok b1 => exact ⟨b1, rfl⟩
    | error e => simp [step, store, List.getElem?_eq_getElem hp] at h
  | commit is_notify index =>
    have hp : index < b.data_.length := by rw [hwf]; exact of_decide_eq_true hop
    cases h : b.step (.commit is_notify index) with
    | ok b1 => exact ⟨b1, rfl⟩
    | error e => simp [step, commit, List.getElem?_eq_getElem hp] at h
  | read index =>
    obtain ⟨node, h⟩ := slot_exists b hC hwf index
    refine ⟨b, ?_⟩
    simp only [step, at_ok b index node hC0 h, overwritten]
    split_ifs <;> rfl
  | subscript index =>
    obtain ⟨node, h⟩ := slot_exists b hC hwf index
    exact ⟨b, by simp only [step, subscript, if_neg hC0, h]⟩
  | size => exact ⟨b, rfl⟩
  | capacity => exact ⟨b, rfl⟩

theorem run_total {T : Type} (ops : List (Op T)) :
    ∀ (b : circular_buffer T), 1 ≤ b.capacity_ → b.data_.length = b.capacity_ →
      (∀ op ∈ ops, op.in_range b.capacity_ = true) → ∃ b1, b.run ops = .ok b1 := by
  induction ops with
  | nil => intro b _ _ _; exact ⟨b, rfl⟩
  | cons op ops ih =>
    intro b hC hwf hops
    obtain ⟨b2, hstep⟩ := step_total b op hC hwf (hops op (List.mem_cons_self _ _))
    obtain ⟨hc, hl, -⟩ := step_frame hstep
    obtain ⟨b1, hrun⟩ := ih b2 (by rw [hc]; exact hC) (by rw [hl, hc]; exact hwf)
      (fun o ho => by rw [hc]; exact hops o (List.mem_cons_of_mem _ ho))
    exact ⟨b1, by simp only [run, hstep, hrun]⟩

/-! ## `size()` counts the assigned indices (C12) -/

/-- C12: after any sequential run of calls on a fresh buffer, of which
`n < 2 ^ 64` are `push` or `alloc` calls (the others being stores through
allocated pointers, `commit`, `at`, `operator[]`, `size`, `capacity`), `size()`
equals `n`; and with capacity at least 1 and every `store`/`commit` position
inside the slots, the run does return. -/
theorem C12_size_counts_assigned {T : Type} (C : Nat) (raw : Nat → T) (ops : List (Op T))
    (hn : ops.countP Op.assigns_index < 2 ^ 64) :
    (∀ b, (construct C raw).run ops = .ok b →
        b.size = ops.countP Op.assigns_index ∧ b.capacity = C) ∧
      (1 ≤ C → (∀ op ∈ ops, op.in_range C = true) →
        ∃ b, (construct C raw).run ops = .ok b ∧ b.size = ops.countP Op.assigns_index) := by
  have key : ∀ b, (construct C raw).run ops = .ok b →
      b.size = ops.countP Op.assigns_index ∧ b.capacity = C := by
    intro b hb
    obtain ⟨hc, -, hs⟩ := run_frame ops (construct C raw) b hb
      (by rw [SIZE_MOD_eq]; exact Nat.zero_lt_succ _)
    refine ⟨?_, hc⟩
    show b.size_ = _
    rw [hs]
    show (0 + _) % SIZE_MOD = _
    rw [Nat.zero_add, Nat.mod_eq_of_lt (by rw [SIZE_MOD_eq]; omega)]
  refine ⟨key, ?_⟩
  intro hC hops
  obtain ⟨b, hb⟩ := run_total ops (construct C raw) hC (by simp [construct]) hops
  exact ⟨b, hb, (key b hb).1⟩

/-- C12 on capacity 2: three pushes, one alloc with store and commit, reads of
a live and of an overwritten index; `size()` is 4. -/
theorem C12_size_counts_assigned_witness :
    (∀ b, (construct 2 (fun _ => "")).run
          [.push true "a", .push false "b", .read 0, .push true "c", .read 0, .subscript 5,
            .alloc, .store 1 "d", .commit true 1, .size, .capacity] = .ok b →
        b.size = 4 ∧ b.capacity = 2) ∧
      (1 ≤ 2 →
        (∀ op ∈ ([.push true "a", .push false "b", .read 0, .push true "c", .read 0,
            .subscript 5, .alloc, .store 1 "d", .commit true 1, .size, .capacity] :
            List (Op String)), op.in_range 2 = true) →
        ∃ b, (construct 2 (fun _ => "")).run
          [.push true "a", .push false "b", .read 0, .push true "c", .read 0, .subscript 5,
            .alloc, .store 1 "d", .commit true 1, .size, .capacity] = .ok b ∧ b.size = 4) :=
  C12_size_counts_assigned 2 (fun _ => "")
    [.push true "a", .push false "b", .read 0, .push true "c", .read 0, .subscript 5,
      .alloc, .store 1 "d", .commit true 1, .size, .capacity] (by decide)

/-! ## `get_memory_size` (C13) -/

/-- C13 as stated fails: with a 16-byte header and 16-byte slots,
`get_memory_size(2 ^ 60)` is 16, because `16 * 2 ^ 60` wraps to 0 in
`size_type`; that is not `16 + 2 ^ 60 * 16`, it is less than the bytes of the
slots, and it is below `get_memory_size(1)`. -/
theorem C13_counterexample :
    get_memory_size 16 16 (2 ^ 60) = 16 ∧
      get_memory_size 16 16 (2 ^ 60) ≠ 16 + 2 ^ 60 * 16 ∧
      get_memory_size 16 16 (2 ^ 60) < 2 ^ 60 * 16 ∧
      get_memory_size 16 16 (2 ^ 60) < get_memory_size 16 16 1 := by
  refine ⟨by decide, by decide, by decide, by decide⟩

/-- C13 (amended): `get_memory_size(n)` is `header_size + n * slot_size`
reduced modulo `2 ^ 64`; whenever `header_size + n * slot_size < 2 ^ 64` it is
that exact byte size, it is at least the bytes of the `n` slots, and it is
strictly larger than the result for every smaller capacity. -/
theorem C13_get_memory_size {header_size slot_size n : Nat} (hslot : 0 < slot_size) :
    get_memory_size header_size slot_size n = (header_size + n * slot_size) % 2 ^ 64 ∧
      (header_size + n * slot_size < 2 ^ 64 →
        get_memory_size header_size slot_size n = header_size + n * slot_size ∧
        n * slot_size ≤ get_memory_size header_size slot_size n ∧
        ∀ m, m < n →
          get_memory_size header_size slot_size m < get_memory_size header_size slot_size n) := by
  have hform : ∀ k, get_memory_size header_size slot_size k =
      (header_size + k * slot_size) % 2 ^ 64 := by
    intro k
    show (header_size + (slot_size * k) % SIZE_MOD) % SIZE_MOD = _
    rw [Nat.add_mod_mod, Nat.mul_comm, SIZE_MOD_eq]
    rfl
  refine ⟨hform n, ?_⟩
  intro hfit
  have hn : get_memory_size header_size slot_size n = header_size + n * slot_size := by
    rw [hform n, Nat.mod_eq_of_lt hfit]
  refine ⟨hn, by rw [hn]; exact Nat.le_add_left _ _, ?_⟩
  intro m hm
  have hlt : m * slot_size < n * slot_size := Nat.mul_lt_mul_of_pos_right hm hslot
  rw [hn, hform m, Nat.mod_eq_of_lt (by omega)]
  omega

/-- C13 (amended) with a 16-byte header, 16-byte slots and capacity 4. -/
theorem C13_get_memory_size_witness :
    get_memory_size 16 16 4 = (16 + 4 * 16) % 2 ^ 64 ∧
      (16 + 4 * 16 < 2 ^ 64 →
        get_memory_size 16 16 4 = 16 + 4 * 16 ∧
        4 * 16 ≤ get_memory_size 16 16 4 ∧
        ∀ m, m < 4 → get_memory_size 16 16 m < get_memory_size 16 16 4) :=
  C13_get_memory_size (by decide)

/-! ## Interleaved reader and producers (C14) -/

/-- The three accesses of a producer, run without interruption, are `push`. -/
theorem producer_alone_eq_push {T : Type} (is_notify : Bool) (b : circular_buffer T) (v : T) :
    producer_alone b v = b.push is_notify v := by
  by_cases hC : b.capacity_ = 0
  · simp [producer_alone, producer_step, push, hC]
  · cases h : b.data_[b.size_ % b.capacity_]? with
    | none => simp [producer_alone, producer_step, push, hC, h]
    | some node =>
      have hidx := getElem_some_lt h
      simp [producer_alone, producer_step, push, hC, h, List.getElem?_set_self hidx]

/-- The three accesses of the reader, run without interruption, are `at`. -/
theorem reader_alone_eq_at {T : Type} (b : circular_buffer T) (index : Nat) :
    reader_alone b index = b.«at» index := by
  by_cases hC : b.capacity_ = 0
  · simp [reader_alone, reader_step, circular_buffer.«at», hC]
  · cases h : b.data_[index % b.capacity_]? with
    | none => simp [reader_alone, reader_step, circular_buffer.«at», hC, h]
    | some node =>
      by_cases hv : node.write_count = (index / b.capacity_ + 1) % SIZE_MOD
      · simp [reader_alone, reader_step, circular_buffer.«at», hC, h, hv]
      · simp [reader_alone, reader_step, circular_buffer.«at», hC, h, hv]

/-- C14, the code at the failing interleaving: capacity 1, producer 1 runs
`push("a")` to the end, so "a" is the value published for index 0.  The reader
in `at(0)` loads version 1 and passes the first check; producer 2 in
`push("b")` takes index 1 and stores "b" in slot 0; the reader copies "b",
loads version 1 again, passes the second check and returns "b", while
producer 2 has not yet incremented the version. -/
theorem C14_reader_returns_unpublished_value :
    ∃ s1 s2,
      (Interleaved.mk (construct 1 (fun _ => "")) (.start 0) [.start "a", .start "b"]).exec
          [1, 1, 1] = .ok s1 ∧
        s1.buffer.«at» 0 = .ok "a" ∧
        s1.exec [0, 2, 2, 0, 0] = .ok s2 ∧
        s2.reader = .returned "b" ∧
        s2.producers = [.done, .stored 0] ∧
        s2.buffer.version 0 = some 1 :=
  ⟨_, _, rfl, by decide, rfl, by decide, by decide, by decide⟩

/-! ## Frame of `push` (C15) -/

/-- C15 as stated fails: with capacity 1, after `2 ^ 64 - 1` pushes slot 0 has
version `2 ^ 64 - 1`; the next `push` leaves it with version 0, not with a
version larger by one. -/
theorem C15_counterexample :
    ∃ b b1, (construct 1 (fun _ => (0 : Nat))).pushes true
          (List.replicate (2 ^ 64 - 2 + 1) 7) = .ok b ∧
        b.capacity = 1 ∧ b.version (b.size % 1) = some (2 ^ 64 - 1) ∧
        b.push true 8 = .ok b1 ∧ b1.version (b.size % 1) = some 0 :=
  ⟨_, _, pushes_replicate_capacity_one true 7 (2 ^ 64 - 2) 0 0 0, by decide, by decide, rfl,
    by decide⟩

/-- C15 (amended): for every state with capacity `C ≥ 1` (holding its `C`
slots) and `size() = n`, `push(v)` returns; it stores `v` in slot `n mod C`,
increments that slot's version by one modulo `2 ^ 64` (by exactly one when the
version is below `2 ^ 64 - 1`), sets `size()` to `(n + 1) mod 2 ^ 64`, and
leaves `capacity()`, the number of slots and every other slot unchanged. -/
theorem C15_push_frame {T : Type} (b : circular_buffer T) (is_notify : Bool) (v : T)
    (hC : 1 ≤ b.capacity_) (hwf : b.data_.length = b.capacity_) :
    ∃ node b1, b.data_[b.size % b.capacity]? = some node ∧
      b.push is_notify v = .ok b1 ∧
      b1.data_[b.size % b.capacity]? =
        some { write_count := (node.write_count + 1) % 2 ^ 64, value := v } ∧
      (node.write_count + 1 < 2 ^ 64 →
        b1.version (b.size % b.capacity) = some (node.write_count + 1)) ∧
      b1.size = (b.size + 1) % 2 ^ 64 ∧
      b1.capacity = b.capacity ∧
      b1.data_.length = b.data_.length ∧
      ∀ s, s ≠ b.size % b.capacity → b1.data_[s]? = b.data_[s]? := by
  have hC0 : b.capacity_ ≠ 0 := by omega
  obtain ⟨node, h⟩ := slot_exists b hC hwf b.size_
  have hidx := getElem_some_lt h
  have hset : (b.data_.set (b.size_ % b.capacity_)
      { write_count := (node.write_count + 1) % SIZE_MOD, value := v })[b.size_ % b.capacity_]? =
      some { write_count := (node.write_count + 1) % SIZE_MOD, value := v } :=
    List.getElem?_set_self hidx
  refine ⟨node, _, h, push_ok is_notify b v node hC0 h, hset, ?_, rfl, rfl,
    List.length_set _ _ _, ?_⟩
  · intro hlt
    show Option.map Node.write_count ((b.data_.set (b.size_ % b.capacity_)
      { write_count := (node.write_count + 1) % SIZE_MOD, value := v })[b.size_ % b.capacity_]?)
      = _
    rw [hset]
    show some ((node.write_count + 1) % SIZE_MOD) = _
    rw [Nat.mod_eq_of_lt (by rw [SIZE_MOD_eq]; omega)]
  · intro s hs
    exact List.getElem?_set_ne (fun h => hs h.symm)

/-- C15 (amended) on the wrapped buffer of capacity 2 holding three pushes. -/
theorem C15_push_frame_witness :
    ∃ node b1,
      (circular_buffer.mk 3 2 [Node.mk 2 "c", Node.mk 1 "b"]).data_[3 % 2]? = some node ∧
      (circular_buffer.mk 3 2 [Node.mk 2 "c", Node.mk 1 "b"]).push true "d" = .ok b1 ∧
      b1.data_[3 % 2]? = some { write_count := (node.write_count + 1) % 2 ^ 64, value := "d" } ∧
      (node.write_count + 1 < 2 ^ 64 → b1.version (3 % 2) = some (node.write_count + 1)) ∧
      b1.size = (3 + 1) % 2 ^ 64 ∧
      b1.capacity = 2 ∧
      b1.data_.length = [Node.mk 2 "c", Node.mk 1 "b"].length ∧
      ∀ s, s ≠ 3 % 2 → b1.data_[s]? = [Node.mk 2 "c", Node.mk 1 "b"][s]? :=
  C15_push_frame (circular_buffer.mk 3 2 [Node.mk 2 "c", Node.mk 1 "b"]) true "d"
    (by decide) rfl

/-! ## Versions count the publishes (C16) -/

theorem landed_eq_published (C N s : Nat) (hC : 0 < C) (hs : s < C) :
    landed C N s = published C N s := by
  induction N with
  | zero => simp [landed, published]
  | succ N ih =>
    rw [published_succ C N s hC hs, ← ih]
    simp only [landed, List.range_succ, List.countP_append, List.countP_singleton, beq_iff_eq]

/-- C16: in the state reached from construction (capacity `C ≥ 1`) by
`N < 2 ^ 64` sequential pushes, the version of each slot `s < C` is the number
of logical indices `j < N` with `j mod C = s`; so for `N ≥ 1` the slot of the
most recent index `N - 1` has version `(N - 1) / C + 1`. -/
theorem C16_version_counts_publishes {T : Type} (C : Nat) (raw : Nat → T) (is_notify : Bool)
    (vs : List T) (hC : 1 ≤ C) (hN : vs.length < 2 ^ 64) :
    ∃ b, (construct C raw).pushes is_notify vs = .ok b ∧
      (∀ s, s < C →
        b.version s = some ((List.range vs.length).countP (fun j => j % C == s))) ∧
      (1 ≤ vs.length → b.version ((vs.length - 1) % C) = some ((vs.length - 1) / C + 1)) := by
  obtain ⟨b, hb, R⟩ := reached_pushes C raw hC is_notify vs (by rw [SIZE_MOD_eq]; omega)
  refine ⟨b, hb, ?_, ?_⟩
  · intro s hs
    rw [R.version_eq s hs, ← landed_eq_published C vs.length s hC hs]
    rfl
  · intro h1
    rw [R.version_eq _ (Nat.mod_lt _ hC),
      published_current C vs.length (vs.length - 1) hC (by omega) (by omega)]

/-- C16 at capacity 4 after five pushes. -/
theorem C16_version_counts_publishes_witness :
    ∃ b, (construct 4 (fun _ => "")).pushes true ["a", "b", "c", "d", "e"] = .ok b ∧
      (∀ s, s < 4 →
        b.version s =
          some ((List.range ["a", "b", "c", "d", "e"].length).countP (fun j => j % 4 == s))) ∧
      (1 ≤ ["a", "b", "c", "d", "e"].length →
        b.version ((["a", "b", "c", "d", "e"].length - 1) % 4) =
          some ((["a", "b", "c", "d", "e"].length - 1) / 4 + 1)) :=
  C16_version_counts_publishes 4 (fun _ => "") true ["a", "b", "c", "d", "e"]
    (by decide) (by decide)

/-! ## Versions along a run (C17) -/

theorem version_set {T : Type} (sz C : Nat) (l : List (Node T)) (idx s : Nat) (nd old : Node T)
    (h : l[idx]? = some old) :
    (circular_buffer.mk sz C (l.set idx nd)).version s =
      if idx = s then some nd.write_count else (circular_buffer.mk sz C l).version s := by
  have hidx := getElem_some_lt h
  simp only [version, List.getElem?_set, if_pos hidx]
  split_ifs <;> rfl

/-- One call leaves the version of a slot alone or, if it is a `push` or a
`commit`, may advance it by one modulo `2 ^ 64`. -/
theorem step_version {T : Type} {b b1 : circular_buffer T} {op : Op T} {s w : Nat}
    (h : b.step op = .ok b1) (hv : b.version s = some w) :
    b1.version s = some w ∨
      (op.increments_version = true ∧ b1.version s = some ((w + 1) % SIZE_MOD)) := by
  have hsame : ∀ {idx : Nat} {node : Node T}, b.data_[idx]? = some node → idx = s →
      node.write_count = w := by
    intro idx node hn hs
    subst hs
    rw [version, hn] at hv
    exact Option.some.inj hv
  cases op with
  | push is_notify val =>
    obtain ⟨node, -, hn, rfl⟩ := push_inv (show b.push is_notify val = .ok b1 from h)
    rw [version_set _ _ _ _ s _ node hn]
    by_cases hs : b.size_ % b.capacity_ = s
    · right; rw [if_pos hs, hsame hn hs]; exact ⟨rfl, rfl⟩
    · left; rw [if_neg hs]; exact hv
  | alloc =>
    simp only [step] at h
    split at h
    · exact absurd h (by simp)
    · rename_i r b2 hal
      obtain ⟨-, -, rfl⟩ := alloc_inv hal
      cases Except.ok.inj h
      left; exact hv
  | store p v =>
    obtain ⟨node, hn, rfl⟩ := store_inv (show b.store p v = .ok b1 from h)
    rw [version_set _ _ _ _ s _ node hn]
    left
    by_cases hs : p = s
    · rw [if_pos hs, hsame hn hs]
    · rw [if_neg hs]; exact hv
  | commit is_notify index =>
    obtain ⟨node, hn, rfl⟩ := commit_inv (show b.commit is_notify index = .ok b1 from h)
    rw [version_set _ _ _ _ s _ node hn]
    by_cases hs : index = s
    · right; rw [if_pos hs, hsame hn hs]; exact ⟨rfl, rfl⟩
    · left; rw [if_neg hs]; exact hv
  | read index => cases read_inv h; left; exact hv
  | subscript index => cases subscript_inv h; left; exact hv
  | size => cases Except.ok.inj (show Except.ok b = .ok b1 from h); left; exact hv
  | capacity => cases Except.ok.inj (show Except.ok b = .ok b1 from h); left; exact hv

/-- Along a run whose `push` and `commit` calls cannot make the counter wrap,
the version of a slot never decreases. -/
theorem run_version {T : Type} (s : Nat) (ops : List (Op T)) :
    ∀ (b b1 : circular_buffer T) (w : Nat), b.run ops = .ok b1 → b.version s = some w →
      w + ops.countP Op.increments_version < SIZE_MOD →
      ∃ w1, b1.version s = some w1 ∧ w ≤ w1 ∧ w1 ≤ w + ops.countP Op.increments_version := by
  induction ops with
  | nil =>
    intro b b1 w h hv _
    cases Except.ok.inj (show Except.ok b = .ok b1 from h)
    exact ⟨w, hv, Nat.le_refl _, Nat.le_add_right _ _⟩
  | cons op ops ih =>
    intro b b1 w h hv hlt
    simp only [run] at h
    split at h
    · exact absurd h (by simp)
    · rename_i b2 hstep
      rw [List.countP_cons] at hlt ⊢
      rcases step_version hstep hv with h2 | ⟨hinc, h2⟩
      · obtain ⟨w1, hw1, hle, hge⟩ := ih b2 b1 w h h2 (by omega)
        exact ⟨w1, hw1, hle, by omega⟩
      · rw [if_pos hinc] at hlt ⊢
        rw [Nat.mod_eq_of_lt (by omega)] at h2
        obtain ⟨w1, hw1, hle, hge⟩ := ih b2 b1 (w + 1) h h2 (by omega)
        exact ⟨w1, hw1, by omega, by omega⟩

theorem at_fails_of_version {T : Type} (b : circular_buffer T) (i w : Nat)
    (hC : 1 ≤ b.capacity_) (hv : b.version (i % b.capacity_) = some w)
    (hgt : i / b.capacity_ + 1 < w) (hw : w < SIZE_MOD) :
    b.«at» i = .error (.runtime_error "data has been overwritten") := by
  cases hn : b.data_[i % b.capacity_]? with
  | none => rw [version, hn] at hv; exact absurd hv (by simp)
  | some node =>
    rw [version, hn] at hv
    have hwc : node.write_count = w := Option.some.inj hv
    rw [at_fails_iff b i node (by omega) hn, hwc, Nat.mod_eq_of_lt (by omega)]
    omega

/-- C17 as stated fails: with capacity 1, after `2 ^ 64 - 1` pushes slot 0 has
version `2 ^ 64 - 1`, above the expected version 1 of index 0; two more pushes
(two version increments) wrap the version to 1, and `at(0)` succeeds again. -/
theorem C17_counterexample :
    ∃ b b1, (construct 1 (fun _ => (0 : Nat))).pushes true
          (List.replicate (2 ^ 64 - 2 + 1) 7) = .ok b ∧
        b.version (0 % 1) = some (2 ^ 64 - 1) ∧ 0 / 1 + 1 < 2 ^ 64 - 1 ∧
        b.«at» 0 = .error (.runtime_error "data has been overwritten") ∧
        b.run [.push true 8, .push true 9] = .ok b1 ∧
        b1.version (0 % 1) = some 1 ∧
        b1.«at» 0 = .ok 9 :=
  ⟨_, _, pushes_replicate_capacity_one true 7 (2 ^ 64 - 2) 0 0 0, by decide, by decide,
    by decide, rfl, by decide, by decide⟩

/-- C17 (amended): if in some state (capacity at least 1) the version `w` of
slot `i mod C` exceeds the expected version `i / C + 1` of index `i`, then
`at(i)` fails in that state and in every state reached from it by a run of
`push`, `alloc`, store, `commit`, `at`, `operator[]`, `size` and `capacity`
calls in which the number `k` of version increments (`push` and `commit`
calls) satisfies `w + k < 2 ^ 64`; along such a run the version of the slot
does not decrease. -/
theorem C17_overwritten_stays_invalid {T : Type} (b b1 : circular_buffer T) (i w : Nat)
    (ops : List (Op T)) (hC : 1 ≤ b.capacity_)
    (hv : b.version (i % b.capacity_) = some w) (hgt : i / b.capacity_ + 1 < w)
    (hk : w + ops.countP Op.increments_version < 2 ^ 64)
    (hrun : b.run ops = .ok b1) :
    b.«at» i = .error (.runtime_error "data has been overwritten") ∧
      b1.«at» i = .error (.runtime_error "data has been overwritten") ∧
      ∃ w1, b1.version (i % b.capacity_) = some w1 ∧ w ≤ w1 := by
  have hk2 : w + ops.countP Op.increments_version < SIZE_MOD := by rw [SIZE_MOD_eq]; omega
  obtain ⟨w1, hw1, hle, hge⟩ := run_version (i % b.capacity_) ops b b1 w hrun hv hk2
  have hcap : b1.capacity_ = b.capacity_ := by
    clear hv hgt hk hk2 hw1 hle hge
    induction ops generalizing b with
    | nil => cases Except.ok.inj (show Except.ok b = .ok b1 from hrun); rfl
    | cons op ops ih =>
      simp only [run] at hrun
      split at hrun
      · exact absurd hrun (by simp)
      · rename_i b2 hstep
        rw [ih b2 (by rw [(step_frame hstep).1]; exact hC) hrun, (step_frame hstep).1]
  refine ⟨at_fails_of_version b i w hC hv hgt (by omega), ?_, w1, hw1, hle⟩
  apply at_fails_of_version b1 i w1 (by rw [hcap]; exact hC)
  · rw [hcap]; exact hw1
  · rw [hcap]; omega
  · omega

/-- C17 (amended) at capacity 2 after three pushes: index 0 stays invalid
along two more pushes, a read and a commit. -/
theorem C17_overwritten_stays_invalid_witness :
    (circular_buffer.mk 3 2 [Node.mk 2 "c", Node.mk 1 "b"]).«at» 0 =
        .error (.runtime_error "data has been overwritten") ∧
      (circular_buffer.mk 5 2 [Node.mk 4 "e", Node.mk 2 "d"]).«at» 0 =
        .error (.runtime_error "data has been overwritten") ∧
      ∃ w1, (circular_buffer.mk 5 2 [Node.mk 4 "e", Node.mk 2 "d"]).version
          (0 % (circular_buffer.mk 3 2 [Node.mk 2 "c", Node.mk 1 "b"]).capacity_) = some w1 ∧
        2 ≤ w1 :=
  C17_overwritten_stays_invalid (circular_buffer.mk 3 2 [Node.mk 2 "c", Node.mk 1 "b"])
    (circular_buffer.mk 5 2 [Node.mk 4 "e", Node.mk 2 "d"]) 0 2
    [.push true "d", .read 0, .push true "e", .commit true 0]
    (by decide) (by decide) (by decide) (by decide) (by decide)

/-! ## Unchecked access (C18) -/

/-- C18: for every buffer with capacity `C ≥ 1` (holding its `C` slots) and
every index `i`, `operator[](i)` returns the value of slot `i mod C` and has
no failure; `operator[](i + k * C)` returns the same slot's value for every
`k`; and the result is the same in every state with the same capacity and the
same slot values, whatever its versions and `size()`. -/
theorem C18_subscript_unchecked {T : Type} (b : circular_buffer T) (i k : Nat)
    (hC : 1 ≤ b.capacity_) (hwf : b.data_.length = b.capacity_) :
    ∃ node, b.data_[i % b.capacity_]? = some node ∧
      b.subscript i = .ok node.value ∧
      b.subscript (i + k * b.capacity_) = .ok node.value ∧
      ∀ b2 : circular_buffer T, b2.capacity_ = b.capacity_ →
        b2.data_.map Node.value = b.data_.map Node.value →
        b2.subscript i = .ok node.value := by
  have hC0 : b.capacity_ ≠ 0 := by omega
  obtain ⟨node, h⟩ := slot_exists b hC hwf i
  refine ⟨node, h, ?_, ?_, ?_⟩
  · simp only [subscript, if_neg hC0, h]
  · simp only [subscript, if_neg hC0, Nat.add_mul_mod_self_right, h]
  · intro b2 hcap hvals
    have hmap : (b2.data_.map Node.value)[i % b.capacity_]? = some node.value := by
      rw [hvals, List.getElem?_map, h]; rfl
    rw [List.getElem?_map] at hmap
    cases hn : b2.data_[i % b.capacity_]? with
    | none => rw [hn] at hmap; exact absurd hmap (by simp)
    | some node2 =>
      rw [hn] at hmap
      have hval : node2.value = node.value := Option.some.inj hmap
      simp only [subscript, hcap, if_neg hC0, hn, hval]

/-- C18 on the wrapped buffer of capacity 2: `operator[](1)` and
`operator[](1 + 3 * 2)`. -/
theorem C18_subscript_unchecked_witness :
    ∃ node, (circular_buffer.mk 3 2 [Node.mk 2 "c", Node.mk 1 "b"]).data_[1 % 2]? = some node ∧
      (circular_buffer.mk 3 2 [Node.mk 2 "c", Node.mk 1 "b"]).subscript 1 = .ok node.value ∧
      (circular_buffer.mk 3 2 [Node.mk 2 "c", Node.mk 1 "b"]).subscript (1 + 3 * 2) =
        .ok node.value ∧
      ∀ b2 : circular_buffer String, b2.capacity_ = 2 →
        b2.data_.map Node.value = [Node.mk 2 "c", Node.mk 1 "b"].map Node.value →
        b2.subscript 1 = .ok node.value :=
  C18_subscript_unchecked (circular_buffer.mk 3 2 [Node.mk 2 "c", Node.mk 1 "b"]) 1 3
    (by decide) rfl

/-! ## Construction (C19) -/

/-- C19: constructing a buffer with capacity `C ≥ 1` yields a state with
`size() = 0`, `capacity() = C`, `C` slots, and version 0 in each of them. -/
theorem C19_construct_fresh {T : Type} (C : Nat) (raw : Nat → T) (hC : 1 ≤ C) :
    (construct C raw).size = 0 ∧ (construct C raw).capacity = C ∧
      (construct C raw).data_.length = C ∧
      ∀ s, s < C → (construct C raw).version s = some 0 := by
  refine ⟨rfl, rfl, by simp [construct], ?_⟩
  intro s hs
  simp [version, construct, List.getElem?_range hs]

/-- C19 at capacity 4. -/
theorem C19_construct_fresh_witness :
    (construct 4 (fun _ => "")).size = 0 ∧ (construct 4 (fun _ => "")).capacity = 4 ∧
      (construct 4 (fun _ => "")).data_.length = 4 ∧
      ∀ s, s < 4 → (construct 4 (fun _ => "")).version s = some 0 :=
  C19_construct_fresh 4 (fun _ => "") (by decide)

/-! ## Bounds safety (C20) -/

/-- C20: for every buffer with capacity `C ≥ 1` (holding its `C` slots), every
argument and every value of the size counter, the slot positions computed by
`push`, `alloc`, `at`, `operator[]` and `wait` are below `C`; `push`, `alloc`,
`operator[]` and `wait` return, and `at` returns or throws its
`runtime_error`: none of them leaves the slots or divides by zero. -/
theorem C20_bounds_safety {T : Type} (b : circular_buffer T) (is_notify : Bool) (v : T)
    (index : Nat) (hC : 1 ≤ b.capacity_) (hwf : b.data_.length = b.capacity_) :
    b.size_ % b.capacity_ < b.capacity_ ∧ index % b.capacity_ < b.capacity_ ∧
      (∃ b1, b.push is_notify v = .ok b1) ∧
      (∃ p b1, b.alloc = .ok ((b.size_ % b.capacity_, p), b1) ∧ p < b.capacity_) ∧
      (∃ node, b.data_[index % b.capacity_]? = some node ∧
        (b.«at» index = .ok node.value ∨
          b.«at» index = .error (.runtime_error "data has been overwritten")) ∧
        b.subscript index = .ok node.value ∧
        ∃ blocks, b.wait index = .ok blocks) := by
  have hC0 : b.capacity_ ≠ 0 := by omega
  have hpos : 0 < b.capacity_ := by omega
  obtain ⟨nodeP, hP⟩ := slot_exists b hC hwf b.size_
  obtain ⟨node, h⟩ := slot_exists b hC hwf index
  have hal : b.alloc = .ok ((b.size_ % b.capacity_, b.size_ % b.capacity_),
      circular_buffer.mk ((b.size_ + 1) % SIZE_MOD) b.capacity_ b.data_) := by
    simp only [alloc, if_neg hC0]
  have hwait : b.wait index =
      .ok (atomic_wait_blocks node.write_count ((index / b.capacity_ + 1) % SIZE_MOD)) := by
    simp only [wait, if_neg hC0, h]
  refine ⟨Nat.mod_lt _ hpos, Nat.mod_lt _ hpos, ⟨_, push_ok is_notify b v nodeP hC0 hP⟩,
    ⟨b.size_ % b.capacity_, _, hal, Nat.mod_lt _ hpos⟩,
    node, h, ?_, by simp only [subscript, if_neg hC0, h], ⟨_, hwait⟩⟩
  rw [at_ok b index node hC0 h]
  by_cases hv : node.write_count = (index / b.capacity_ + 1) % SIZE_MOD
  · left; rw [if_pos hv]
  · right; rw [if_neg hv]; rfl

/-- C20 on the wrapped buffer of capacity 2, with the largest `size_type`
index. -/
theorem C20_bounds_safety_witness :
    3 % 2 < 2 ∧ (2 ^ 64 - 1) % 2 < 2 ∧
      (∃ b1, (circular_buffer.mk 3 2 [Node.mk 2 "c", Node.mk 1 "b"]).push true "d" = .ok b1) ∧
      (∃ p b1, (circular_buffer.mk 3 2 [Node.mk 2 "c", Node.mk 1 "b"]).alloc =
          .ok ((3 % 2, p), b1) ∧ p < 2) ∧
      (∃ node, [Node.mk 2 "c", Node.mk 1 "b"][(2 ^ 64 - 1) % 2]? = some node ∧
        ((circular_buffer.mk 3 2 [Node.mk 2 "c", Node.mk 1 "b"]).«at» (2 ^ 64 - 1) =
            .ok node.value ∨
          (circular_buffer.mk 3 2 [Node.mk 2 "c", Node.mk 1 "b"]).«at» (2 ^ 64 - 1) =
            .error (.runtime_error "data has been overwritten")) ∧
        (circular_buffer.mk 3 2 [Node.mk 2 "c", Node.mk 1 "b"]).subscript (2 ^ 64 - 1) =
          .ok node.value ∧
        ∃ blocks, (circular_buffer.mk 3 2 [Node.mk 2 "c", Node.mk 1 "b"]).wait (2 ^ 64 - 1) =
          .ok blocks) :=
  C20_bounds_safety (circular_buffer.mk 3 2 [Node.mk 2 "c", Node.mk 1 "b"]) true "d"
    (2 ^ 64 - 1) (by decide) rfl

end air
